import Mathlib

/-!
# Verification of the find-best-images core

Shallow embedding of the core algorithms of the `find-best-images`
repository (similarity grouping, hybrid quality selection, collision-safe
path allocation, path-length guarding, output-structure building) together
with proofs and refutations of the specification's claims.

Python `float` metric values are modelled as rationals, machine paths as
`String`, the filesystem as finite sets of file paths and directory paths,
and the MD5-hexdigest-8 primitive (`hashlib.md5(x.encode()).hexdigest()[:8]`)
as an opaque function parameter `md5hex8 : String → String` (the code only
relies on it being a deterministic 8-character digest).
-/

namespace FBI

/-! ## POSIX path helpers (os.path.split / splitext / join / basename / dirname) -/

/-- `str.startswith(pre)`, via character lists so that concrete instances
reduce inside the kernel. -/
def strStartsWith (s pre : String) : Bool := pre.data.isPrefixOf s.data

/-- `str.endswith(suf)`, via character lists. -/
def strEndsWith (s suf : String) : Bool := suf.data.isSuffixOf s.data

/-- `str[:n]` (Python slicing), via character lists. -/
def strTake (s : String) (n : Nat) : String := (s.data.take n).asString

/-- Embedding of POSIX `os.path.split`: split at the final slash; the head
keeps no trailing slashes unless it consists only of slashes. -/
def posixSplit (p : String) : String × String :=
  let chars := p.data
  let tail := (chars.reverse.takeWhile (fun c => c ≠ '/')).reverse
  let head0 := chars.take (chars.length - tail.length)
  let head :=
    if head0 ≠ [] ∧ head0.any (fun c => c ≠ '/') then
      ((head0.reverse.dropWhile (fun c => c = '/')).reverse)
    else head0
  (head.asString, tail.asString)

/-- Embedding of POSIX `os.path.splitext`: split off the extension at the
last dot of the basename, unless the basename has only leading dots. -/
def posixSplitext (p : String) : String × String :=
  let chars := p.data
  let base := (chars.reverse.takeWhile (fun c => c ≠ '/')).reverse
  if base.contains '.' then
    let extTail := (base.reverse.takeWhile (fun c => c ≠ '.')).reverse
    let pre := base.take (base.length - extTail.length - 1)
    if pre.any (fun c => c ≠ '.') then
      ((chars.take (chars.length - extTail.length - 1)).asString,
       ('.' :: extTail).asString)
    else (p, "")
  else (p, "")

/-- Embedding of POSIX `os.path.join` on two components, the second never
being used with an absolute first character in this code base. -/
def posixJoin (a b : String) : String :=
  if strStartsWith b "/" then b
  else if a = "" ∨ strEndsWith a "/" then a ++ b
  else a ++ "/" ++ b

/-- `os.path.basename`. -/
def posixBasename (p : String) : String := (posixSplit p).2

/-- `os.path.dirname`. -/
def posixDirname (p : String) : String := (posixSplit p).1

/-! ## PathLengthGuard: `create_safe_path` (file_operations.py lines 46-77) -/

/-- Embedding of `file_operations.create_safe_path`.  `md5hex8` stands for
`hashlib.md5(name.encode()).hexdigest()[:8]`.  Returns the (possibly
shortened) path and the optional sidecar metadata path. -/
def create_safe_path (md5hex8 : String → String) (original_path : String)
    (max_length : Nat) (metadata : Bool) : String × Option String :=
  if original_path.length ≤ max_length then (original_path, none)
  else
    let excess := original_path.length - max_length
    let dir_path := (posixSplit original_path).1
    let filename := (posixSplit original_path).2
    let name := (posixSplitext filename).1
    let ext := (posixSplitext filename).2
    let shortened_name :=
      (strTake name (max 3 (name.length - excess - 10))) ++ "_" ++ md5hex8 name
    let shortened_path := posixJoin dir_path (shortened_name ++ ext)
    let metadata_path :=
      if metadata then some (posixJoin dir_path (shortened_name ++ ".txt"))
      else none
    (shortened_path, metadata_path)

/-- Stand-in for an arbitrary 8-hex-character digest, used to instantiate
the opaque `md5hex8` parameter in concrete counterexamples and witnesses;
only its length (8 characters) is ever relevant. -/
def md5stub : String → String := fun _ => "0a1b2c3d"

/-! ## CollisionSafePlacer: the filename registry and `get_unique_path`
(file_operations.py lines 141-226) -/

/-- The observable filesystem: the set of existing file paths and the set
of existing directory paths.  `os.path.exists` is true on either. -/
structure FileSys where
  files : Finset String
  dirs : Finset String
deriving DecidableEq

/-- `os.path.exists`. -/
def pathExists (fs : FileSys) (p : String) : Prop :=
  p ∈ fs.files ∨ p ∈ fs.dirs

instance (fs : FileSys) (p : String) : Decidable (pathExists fs p) :=
  inferInstanceAs (Decidable (_ ∨ _))

/-- The basenames of the plain files directly inside directory `d`
(`os.listdir` filtered by `os.path.isfile`, as used to seed the registry). -/
def listdirFiles (fs : FileSys) (d : String) : Finset String :=
  (fs.files.filter (fun p => posixDirname p = d)).image posixBasename

/-- The run-scoped `_filename_registry`: an association list from a
destination directory to the set of basenames already claimed in it. -/
abbrev Registry := List (String × Finset String)

/-- `_filename_registry.get(d)`. -/
def registryLookup (reg : Registry) (d : String) : Option (Finset String) :=
  (reg.find? (fun e => e.1 = d)).map Prod.snd

/-- The claimed-basename set registered for `d` (empty when `d` has no
entry). -/
def registryEntry (reg : Registry) (d : String) : Finset String :=
  (registryLookup reg d).getD ∅

/-- `_filename_registry[d].add(nm)` (the entry is created by seeding
before any add). -/
def registryAdd (reg : Registry) (d nm : String) : Registry :=
  reg.map (fun e => if e.1 = d then (e.1, insert nm e.2) else e)

/-- Lazy seeding: on first touch of directory `d`, create its entry,
filled from the directory's existing files when the directory exists. -/
def seedRegistry (fs : FileSys) (reg : Registry) (d : String) : Registry :=
  if (registryLookup reg d).isSome then reg
  else (d, if d ∈ fs.dirs then listdirFiles fs d else ∅) :: reg

/-- The numeric-fallback name `f"{name}_col_{k}{ext}"`. -/
def numericName (name ext : String) (k : Nat) : String :=
  name ++ "_col_" ++ Nat.repr k ++ ext

/-- Freedom of the numeric candidate with counter `k + 1` (the loop starts
at counter 1): its name is unclaimed and its path does not exist. -/
def numericFreeAt (fs : FileSys) (entry : Finset String)
    (dest_dir name ext : String) (k : Nat) : Prop :=
  numericName name ext (k + 1) ∉ entry ∧
  ¬ pathExists fs (posixJoin dest_dir (numericName name ext (k + 1)))

instance (fs : FileSys) (entry : Finset String) (dest_dir name ext : String) :
    DecidablePred (numericFreeAt fs entry dest_dir name ext) := fun _ =>
  inferInstanceAs (Decidable (_ ∧ _))

lemma toDigitsCore_length_pos : ∀ (f n : Nat) (l : List Char), 0 < f →
    l.length + 1 ≤ (Nat.toDigitsCore 10 f n l).length := by
  intro f
  induction f with
  | zero => intro n l h; omega
  | succ f ih =>
    intro n l _
    show (Nat.toDigitsCore 10 (f+1) n l).length ≥ _
    unfold Nat.toDigitsCore
    by_cases h : n / 10 = 0
    · simp [h]
    · simp only [h, if_false]
      cases f with
      | zero => simp [Nat.toDigitsCore]
      | succ f' =>
        have := ih (n / 10) (Nat.digitChar (n % 10) :: l) (Nat.succ_pos f')
        simp at this ⊢
        omega

lemma toDigitsCore_length_lower (e : Nat) : ∀ (f n : Nat) (l : List Char),
    n < f → 10 ^ e ≤ n →
    e + 1 + l.length ≤ (Nat.toDigitsCore 10 f n l).length := by
  induction e with
  | zero =>
    intro f n l hnf hpow
    have := toDigitsCore_length_pos f n l (by omega)
    omega
  | succ e ih =>
    intro f n l hnf hpow
    have hn10 : 10 ^ e ≤ n / 10 := by
      rw [Nat.le_div_iff_mul_le (by norm_num)]
      calc 10 ^ e * 10 = 10 ^ (e+1) := by ring
        _ ≤ n := hpow
    have hdiv : n / 10 ≠ 0 := by
      have : 1 ≤ 10 ^ e := Nat.one_le_pow _ _ (by norm_num)
      omega
    match f, hnf with
    | f + 1, hnf =>
      show _ ≤ (Nat.toDigitsCore 10 (f+1) n l).length
      unfold Nat.toDigitsCore
      simp only [hdiv, if_false]
      have hlt : n / 10 < f := by
        have h1 : n / 10 < n := Nat.div_lt_self (by omega) (by norm_num)
        omega
      have := ih f (n / 10) (Nat.digitChar (n % 10) :: l) hlt hn10
      simp at this ⊢
      omega

/-- `Nat.repr n` has more than `e` characters once `n ≥ 10 ^ e`. -/
lemma repr_length_lower (e n : Nat) (h : 10 ^ e ≤ n) :
    e + 1 ≤ (Nat.repr n).length := by
  have h2 := toDigitsCore_length_lower e (n+1) n [] (Nat.lt_succ_self n) h
  have h3 : (Nat.repr n).length = (Nat.toDigitsCore 10 (n+1) n []).length := by
    show (Nat.toDigits 10 n).asString.length = _
    rw [List.length_asString]
    rfl
  rw [h3]
  simp at h2
  omega

lemma posixJoin_length_ge (a b : String) :
    b.length ≤ (posixJoin a b).length := by
  rw [posixJoin]
  split
  · omega
  · split
    · rw [String.length_append]; omega
    · rw [String.length_append, String.length_append]; omega

/-- The numeric-suffix loop terminates: only finitely many names are taken
(registry entry, files, directories), while the numeric names grow without
bound, so some counter is free. -/
lemma numericFree_exists (fs : FileSys) (entry : Finset String)
    (dest_dir name ext : String) :
    ∃ k, numericFreeAt fs entry dest_dir name ext k := by
  classical
  set T : Finset String := entry ∪ fs.files ∪ fs.dirs with hT
  set L : Nat := T.sup String.length with hL
  refine ⟨10 ^ L - 1, ?_, ?_⟩
  · intro hmem
    have hlen : (numericName name ext (10 ^ L - 1 + 1)).length ≤ L := by
      refine le_trans (Finset.le_sup (f := String.length) ?_) (le_of_eq rfl)
      simp only [hT, Finset.mem_union]
      exact Or.inl (Or.inl hmem)
    have hk : 10 ^ L - 1 + 1 = 10 ^ L := by
      have : 1 ≤ 10 ^ L := Nat.one_le_pow _ _ (by norm_num)
      omega
    have hrepr : L + 1 ≤ (Nat.repr (10 ^ L - 1 + 1)).length := by
      rw [hk]; exact repr_length_lower L _ le_rfl
    have : (Nat.repr (10 ^ L - 1 + 1)).length
        ≤ (numericName name ext (10 ^ L - 1 + 1)).length := by
      rw [numericName, String.length_append, String.length_append,
          String.length_append]
      omega
    omega
  · intro hex
    have hmem : posixJoin dest_dir (numericName name ext (10 ^ L - 1 + 1)) ∈ T := by
      rcases hex with h | h
      · simp only [hT, Finset.mem_union]; exact Or.inl (Or.inr h)
      · simp only [hT, Finset.mem_union]; exact Or.inr h
    have hlen : (posixJoin dest_dir (numericName name ext (10 ^ L - 1 + 1))).length
        ≤ L := Finset.le_sup (f := String.length) hmem
    have hk : 10 ^ L - 1 + 1 = 10 ^ L := by
      have : 1 ≤ 10 ^ L := Nat.one_le_pow _ _ (by norm_num)
      omega
    have hrepr : L + 1 ≤ (Nat.repr (10 ^ L - 1 + 1)).length := by
      rw [hk]; exact repr_length_lower L _ le_rfl
    have h1 : (Nat.repr (10 ^ L - 1 + 1)).length
        ≤ (numericName name ext (10 ^ L - 1 + 1)).length := by
      rw [numericName, String.length_append, String.length_append,
          String.length_append]
      omega
    have h2 := posixJoin_length_ge dest_dir (numericName name ext (10 ^ L - 1 + 1))
    omega

/-- The counter found by the `while True` numeric-suffix loop (counting
from 0; the produced counter in the name is this plus 1). -/
def numericCounter (fs : FileSys) (entry : Finset String)
    (dest_dir name ext : String) : Nat :=
  Nat.find (numericFree_exists fs entry dest_dir name ext)

/-- The basename produced by the numeric-suffix loop. -/
def numericResult (fs : FileSys) (entry : Finset String)
    (dest_dir name ext : String) : String :=
  numericName name ext (numericCounter fs entry dest_dir name ext + 1)

/-- Embedding of `file_operations.get_unique_path`.  The filesystem is
read-only during the call; the registry is threaded.  `md5hex8` stands for
`hashlib.md5(path.encode()).hexdigest()[:8]`; `source_path = none` models
Python's falsy `source_path`.  (The code's lazy seeding, first-fit checks
and registry insertions are reproduced branch for branch.) -/
def get_unique_path (md5hex8 : String → String) (fs : FileSys)
    (reg0 : Registry) (dest_path : String) (source_path : Option String)
    (collision_strategy : String) : String × Registry :=
  let dest_dir := (posixSplit dest_path).1
  let dest_filename := (posixSplit dest_path).2
  let name := (posixSplitext dest_filename).1
  let ext := (posixSplitext dest_filename).2
  let reg := seedRegistry fs reg0 dest_dir
  let entry := registryEntry reg dest_dir
  if dest_filename ∉ entry ∧ ¬ pathExists fs dest_path then
    (dest_path, registryAdd reg dest_dir dest_filename)
  else
    let parentTry : Option (String × Registry) :=
      if collision_strategy = "hierarchical" ∨ collision_strategy = "parent_only" then
        match source_path with
        | some sp =>
          let parent_dir := posixBasename (posixDirname sp)
          let parent_name := name ++ "_" ++ parent_dir ++ ext
          let parent_path := posixJoin dest_dir parent_name
          if parent_name ∉ entry ∧ ¬ pathExists fs parent_path then
            some (parent_path, registryAdd reg dest_dir parent_name)
          else none
        | none => none
      else none
    match parentTry with
    | some r => r
    | none =>
      if collision_strategy = "parent_only" then
        (posixJoin dest_dir (numericResult fs entry dest_dir name ext),
         registryAdd reg dest_dir (numericResult fs entry dest_dir name ext))
      else
        let hashTry : Option (String × Registry) :=
          if collision_strategy = "hierarchical" ∨ collision_strategy = "hash" then
            match source_path with
            | some sp =>
              let hash_name := name ++ "_" ++ md5hex8 sp ++ ext
              let hash_path := posixJoin dest_dir hash_name
              if hash_name ∉ entry ∧ ¬ pathExists fs hash_path then
                some (hash_path, registryAdd reg dest_dir hash_name)
              else none
            | none => none
          else none
        match hashTry with
        | some r => r
        | none =>
          (posixJoin dest_dir (numericResult fs entry dest_dir name ext),
           registryAdd reg dest_dir (numericResult fs entry dest_dir name ext))

/-! ## SimilarityGrouper: `group_similar_images`
(similarity_tools.py lines 311-388) -/

/-- One merge step of the grouping loop: find the current group of `i` and
the current group of `j`; when distinct, pour `j`'s group into `i`'s
(`group_i.update(group_j)`, mutating the list entry in place) and remove
`j`'s group from the list (`groups.remove(group_j)`).  When either image
is in no group the step does nothing (unreachable from the initial state,
where every id has a group). -/
def mergePair (groups : List (Finset String)) (i j : String) :
    List (Finset String) :=
  match groups.find? (fun g => decide (i ∈ g)),
      groups.find? (fun g => decide (j ∈ g)) with
  | some gi, some gj =>
    if gi = gj then groups
    else (groups.map (fun g => if g = gi then gi ∪ gj else g)).erase gj
  | _, _ => groups

/-- The grouping loop over an explicit list of comparison pairs: merge the
groups of every pair whose similarity reaches the threshold
(`if sim >= threshold`). -/
def processPairs (sim : String → String → ℚ) (t : ℚ)
    (pairs : List (String × String)) (groups : List (Finset String)) :
    List (Finset String) :=
  pairs.foldl
    (fun gs p => if t ≤ sim p.1 p.2 then mergePair gs p.1 p.2 else gs) groups

/-- The code's pair enumeration
`[(i, j) for i in range(n) for j in range(i+1, n)]`, expressed directly on
the id list. -/
def allPairs : List String → List (String × String)
  | [] => []
  | x :: xs => (xs.map (fun y => (x, y))) ++ allPairs xs

/-- Embedding of `similarity_tools.group_similar_images`: ids are the
embedding dictionary's keys; `sim` is the pluggable pairwise similarity
(cosine similarity of the stored embeddings, or the region-based blend);
`t` the resolved threshold.  Every id starts in its own singleton group
and each qualifying pair merges two groups.  (The code's
`path not in embeddings` skip is omitted: the ids are the very keys of
that dictionary, so the check never fires.) -/
def group_similar_images (ids : List String) (sim : String → String → ℚ)
    (t : ℚ) : List (Finset String) :=
  processPairs sim t (allPairs ids) (ids.map (fun p => ({p} : Finset String)))

/-- Two ids currently share a group. -/
def sameGroup (gs : List (Finset String)) (a b : String) : Prop :=
  ∃ g ∈ gs, a ∈ g ∧ b ∈ g

/-- The grouping loop's state invariant: the group list has no duplicate
sets, groups are nonempty and pairwise disjoint, and they cover exactly
the id set `s`. -/
def GroupsInv (gs : List (Finset String)) (s : Finset String) : Prop :=
  gs.Nodup ∧ (∀ g ∈ gs, g.Nonempty) ∧
  (∀ g1 ∈ gs, ∀ g2 ∈ gs, g1 ≠ g2 → Disjoint g1 g2) ∧
  (∀ x, (∃ g ∈ gs, x ∈ g) ↔ x ∈ s)

/-! ## QualitySelector: `find_best_image_hybrid`
(quality_metrics.py lines 37-44 and 147-280) -/

/-- `DEFAULT_METRIC_WEIGHTS` (quality_metrics.py lines 37-44). -/
def DEFAULT_METRIC_WEIGHTS : List (String × ℚ) :=
  [("dimensions", 1), ("resolution", 9/10), ("format_quality", 4/5),
   ("filesize", 7/10), ("modified_date", 3/5), ("created_date", 1/2)]

/-- `metric_weights.get(metric)` over the weight mapping. -/
def weightOf (ws : List (String × ℚ)) (m : String) : Option ℚ :=
  (ws.find? (fun e => e.1 = m)).map Prod.snd

/-- `metric_overrides.get(metric, date_preference)`. -/
def prefOf (ov : List (String × String)) (date_preference m : String) :
    String :=
  ((ov.find? (fun e => e.1 = m)).map Prod.snd).getD date_preference

/-- Python `max` over a value list (the code only calls it nonempty). -/
def pyMax (l : List ℚ) : ℚ :=
  match l with
  | [] => 0
  | x :: xs => xs.foldl max x

/-- Python `min` over a value list (the code only calls it nonempty). -/
def pyMin (l : List ℚ) : ℚ :=
  match l with
  | [] => 0
  | x :: xs => xs.foldl min x

/-- One primary-metric elimination round of Step 1: compute every
remaining candidate's quality and keep exactly those attaining the best
value (a no-op once a single candidate remains — the loop's `break`). -/
def stage1Step (giq : String → String → String → ℚ)
    (metric_overrides : List (String × String)) (date_preference : String)
    (candidates : List String) (metric : String) : List String :=
  if candidates.length ≤ 1 then candidates
  else
    let metric_date_pref := prefOf metric_overrides date_preference metric
    let qualities :=
      candidates.map (fun img => (img, giq img metric metric_date_pref))
    let best_quality := pyMax (qualities.map (fun q => q.2))
    (qualities.filter (fun q => q.2 = best_quality)).map (fun q => q.1)

/-- Stage 2 first pass: the raw values collected for one secondary
metric, in candidate order — only metrics carrying a weight collect
values (`if metric in metric_weights`). -/
def metricValuesOf (giq : String → String → String → ℚ)
    (metric_overrides : List (String × String)) (date_preference : String)
    (candidates : List String) (metric_weights : List (String × ℚ))
    (metric : String) : List ℚ :=
  if (weightOf metric_weights metric).isSome then
    candidates.map
      (fun img => giq img metric (prefOf metric_overrides date_preference metric))
  else []

/-- `metric_ranges[metric] = (min, max, max - min if max > min else 1)`:
the divisor is forced to 1 when all values coincide. -/
def metricRange (values : List ℚ) : ℚ × ℚ × ℚ :=
  (pyMin values, pyMax values,
   if pyMin values < pyMax values then pyMax values - pyMin values else 1)

/-- `normalized = (value - min_val) / range_val if range_val else 1`. -/
def normalizedValue (value min_val range_val : ℚ) : ℚ :=
  if range_val ≠ 0 then (value - min_val) / range_val else 1

/-- A candidate's Stage 2 total: over each secondary metric that has a
weight and collected values, add the weighted min-max-normalized value. -/
def totalScore (giq : String → String → String → ℚ)
    (metric_overrides : List (String × String)) (date_preference : String)
    (candidates : List String) (metric_weights : List (String × ℚ))
    (secondary_metrics : List String) (img : String) : ℚ :=
  secondary_metrics.foldl (fun acc metric =>
    match weightOf metric_weights metric with
    | none => acc
    | some w =>
      if metricValuesOf giq metric_overrides date_preference candidates
          metric_weights metric = [] then acc
      else
        acc + normalizedValue
            (giq img metric (prefOf metric_overrides date_preference metric))
            (metricRange (metricValuesOf giq metric_overrides date_preference
              candidates metric_weights metric)).1
            (metricRange (metricValuesOf giq metric_overrides date_preference
              candidates metric_weights metric)).2.2
          * w) 0

/-- Embedding of `quality_metrics.find_best_image_hybrid`.  `giq` stands
for `get_image_quality(img, metric, date_pref)` (the spec §6 metric-value
provider, exceptions already defaulted to 0 inside it); metric values are
rationals.  Falsy (empty) `primary_metrics` and `metric_weights` fall
back to the defaults exactly as in the code; the `margin_threshold`
argument is accepted but never read by the code, so it is omitted.
Stage 2's final `sort(key=score, reverse=True)` is Python's stable sort,
modelled by a stable merge sort under the reversed comparison. -/
def find_best_image_hybrid (giq : String → String → String → ℚ)
    (image_group : List String)
    (primary_metrics secondary_metrics : List String)
    (metric_weights : List (String × ℚ)) (date_preference : String)
    (metric_overrides : List (String × String)) : Option String :=
  let candidates := image_group
  let primary :=
    if primary_metrics = [] then
      ["dimensions", "format_quality", "filesize", "modified_date"]
    else primary_metrics
  let weights :=
    if metric_weights = [] then DEFAULT_METRIC_WEIGHTS else metric_weights
  if candidates.length ≤ 1 then candidates.head?
  else
    let candidates :=
      primary.foldl (stage1Step giq metric_overrides date_preference)
        candidates
    if candidates.length = 1 then candidates.head?
    else if secondary_metrics ≠ [] ∧ 1 < candidates.length then
      let candidate_scores := candidates.map (fun img =>
        (img, totalScore giq metric_overrides date_preference candidates
          weights secondary_metrics img))
      match candidate_scores.mergeSort (fun x y => decide (y.2 ≤ x.2)) with
      | [] => none
      | (img, _) :: _ => some img
    else candidates.head?

/-! ## OutputOrganizer: `create_output_structure` and helpers
(directory_structure.py lines 34-320, file_operations.py lines 228-273) -/

/-- One observable filesystem action performed by the output organizer.
`transferAttempt` records every attempted copy/symlink/move with its
outcome (`ok = false` when the underlying operation raised). -/
inductive FSEffect where
  | mkdirp (d : String)
  | writeMeta (p : String)
  | transferAttempt (mode : String) (src : String) (dst : String) (ok : Bool)
  | backlink (src : String) (dst : String)
deriving DecidableEq

/-- The sources of the transfer attempts in an effect log, in order. -/
def attemptSrcs (l : List FSEffect) : List String :=
  l.filterMap (fun e => match e with
    | FSEffect.transferAttempt _ src _ _ => some src
    | _ => none)

/-- The organizer's threaded state: the filesystem, the filename registry
and the ordered log of performed actions. -/
structure FSState where
  fs : FileSys
  registry : Registry
  effects : List FSEffect
deriving DecidableEq

/-- `os.makedirs(d, exist_ok=True)`. -/
def addDir (s : FSState) (d : String) : FSState :=
  { s with fs := ⟨s.fs.files, insert d s.fs.dirs⟩,
           effects := s.effects ++ [FSEffect.mkdirp d] }

/-- `write_metadata_file(p, ...)`: ensures the parent directory and
creates the sidecar text file. -/
def writeMetaEff (s : FSState) (p : String) : FSState :=
  { s with fs := ⟨insert p s.fs.files, insert (posixDirname p) s.fs.dirs⟩,
           effects := s.effects ++ [FSEffect.writeMeta p] }

/-- Embedding of `file_operations.handle_duplicate`: ensure the
destination directory, resolve the collision-free path (claiming it in
the registry), then attempt the transfer.  `failT src dst` says whether
the transfer operation raises; a raised transfer (or an unknown mode's
`ValueError`) yields `none`, which callers catch and skip.  A `move`
removes the source file and optionally leaves a backlink. -/
def handle_duplicate (md5hex8 : String → String)
    (failT : String → String → Bool) (s : FSState)
    (source_path dest_path : String) (mode : String)
    (create_backlink : Bool) (collision_strategy : String) :
    Option String × FSState :=
  let s := addDir s (posixDirname dest_path)
  let r := get_unique_path md5hex8 s.fs s.registry dest_path
    (some source_path) collision_strategy
  let u := r.1
  let s := { s with registry := r.2 }
  if mode = "copy" ∨ mode = "symlink" ∨ mode = "move" then
    if failT source_path u then
      (none, { s with effects :=
        s.effects ++ [FSEffect.transferAttempt mode source_path u false] })
    else
      let s := { s with effects :=
        s.effects ++ [FSEffect.transferAttempt mode source_path u true] }
      if mode = "move" then
        let s := { s with fs := ⟨insert u (s.fs.files.erase source_path),
          s.fs.dirs⟩ }
        if create_backlink then
          (some u, { s with
            fs := ⟨insert source_path s.fs.files, s.fs.dirs⟩,
            effects := s.effects ++ [FSEffect.backlink source_path u] })
        else (some u, s)
      else
        (some u, { s with fs := ⟨insert u s.fs.files, s.fs.dirs⟩ })
  else
    (none, s)

/-- One entry of `create_output_structure`'s returned results list. -/
structure GroupResult where
  best_image : String
  best_image_dest : String
  candidates_dir : String
  total_candidates : Nat
deriving DecidableEq

/-- The long-path guard applied at each naming site: when enabled and the
path overflows, shorten it and (outside dry-run) write the sidecar. -/
def handleLongPath (md5hex8 : String → String) (handle_long_paths : Bool)
    (max_path_length : Nat) (dryrun : Bool) (s : FSState) (p : String) :
    String × FSState :=
  if handle_long_paths ∧ max_path_length < p.length then
    let r := create_safe_path md5hex8 p max_path_length true
    match r.2 with
    | some mp => (r.1, if dryrun then s else writeMetaEff s mp)
    | none => (r.1, s)
  else (p, s)

/-- The purely name-level effect of the long-path guard (what
`handleLongPath` returns as its path, independent of state and mode). -/
def guardName (md5hex8 : String → String) (handle_long_paths : Bool)
    (max_path_length : Nat) (p : String) : String :=
  if handle_long_paths ∧ max_path_length < p.length then
    (create_safe_path md5hex8 p max_path_length true).1
  else p

/-- The inputs and collaborator oracles of one `create_output_structure`
invocation: the metric-value provider `giq`, image dimensions `dims`, the
digest primitive, the transfer-failure oracle `failT`, the naming-pattern
formatter `naming` (modelling `naming_pattern.format(filename=...,
width=..., height=...)`), and the call's keyword arguments. -/
structure OOParams where
  giq : String → String → String → ℚ
  dims : String → Nat × Nat
  md5hex8 : String → String
  failT : String → String → Bool
  naming : String → Nat → Nat → String
  output_dir : String
  primary_metrics : List String
  secondary_metrics : List String
  metric_weights : List (String × ℚ)
  date_preference : String
  metric_overrides : List (String × String)
  file_handling : String
  copy_best : Bool
  suffix : String
  handle_long_paths : Bool
  max_path_length : Nat
  include_singletons : Bool
  singletons_subdir : String
  collision_strategy : String
  create_backlinks : Bool

/-- The candidate loop: every group member is placed into the candidates
directory; each per-item failure is skipped, successes are counted. -/
def processCandidates (P : OOParams) (dryrun : Bool)
    (candidates_dir : String) :
    List String → FSState → Nat → Nat × FSState
  | [], s, count => (count, s)
  | img :: rest, s, count =>
    let cd0 := posixJoin candidates_dir (posixBasename img)
    let r := handleLongPath P.md5hex8 P.handle_long_paths P.max_path_length
      dryrun s cd0
    let candidate_dest := r.1
    let s := r.2
    if dryrun then
      processCandidates P dryrun candidates_dir rest s count
    else
      let mode := if P.file_handling = "copy" then "copy"
        else if P.file_handling = "move" then "move" else "symlink"
      let bl := if P.file_handling = "move" then P.create_backlinks else false
      let hr := handle_duplicate P.md5hex8 P.failT s img candidate_dest mode
        bl P.collision_strategy
      match hr.1 with
      | some _ => processCandidates P dryrun candidates_dir rest hr.2 (count + 1)
      | none => processCandidates P dryrun candidates_dir rest hr.2 count

/-- The per-group body of the main loop: singleton collection, best-image
selection, naming, long-path guarding, directory creation, best-image
placement (whose failure skips the rest of the group) and the candidate
loop. -/
def processGroup (P : OOParams) (dryrun : Bool) (g : List String)
    (s : FSState) : Option GroupResult × List String × FSState :=
  if g.length = 1 ∧ ¬ P.include_singletons then (none, [], s)
  else if g.length = 1 ∧ P.include_singletons then (none, [g.headI], s)
  else
    match find_best_image_hybrid P.giq g P.primary_metrics
        P.secondary_metrics P.metric_weights P.date_preference
        P.metric_overrides with
    | none => (none, [], s)
    | some best =>
      let best_filename := (posixSplitext (posixBasename best)).1
      let wh := P.dims best
      let dir_name := P.naming best_filename wh.1 wh.2
      let r1 := handleLongPath P.md5hex8 P.handle_long_paths
        P.max_path_length dryrun s (posixJoin P.output_dir dir_name)
      let group_dir := r1.1
      let r2 := handleLongPath P.md5hex8 P.handle_long_paths
        P.max_path_length dryrun r1.2
        (posixJoin group_dir (best_filename ++ P.suffix))
      let candidates_dir := r2.1
      let s := if dryrun then r2.2
        else addDir (addDir r2.2 group_dir) candidates_dir
      let r3 := handleLongPath P.md5hex8 P.handle_long_paths
        P.max_path_length dryrun s (posixJoin group_dir (posixBasename best))
      let best_image_dest := r3.1
      if dryrun then
        let rc := processCandidates P dryrun candidates_dir g r3.2 0
        (some ⟨best, best_image_dest, candidates_dir, rc.1⟩, [], rc.2)
      else
        let bmode := if P.copy_best then "copy"
          else if P.file_handling = "copy" then "copy"
          else if P.file_handling = "move" then "move" else "symlink"
        let bbl := if ¬ P.copy_best ∧ P.file_handling = "move" then
            P.create_backlinks else false
        let hb := handle_duplicate P.md5hex8 P.failT r3.2 best
          best_image_dest bmode bbl P.collision_strategy
        match hb.1 with
        | none => (none, [], hb.2)
        | some actual_dest =>
          let rc := processCandidates P dryrun candidates_dir g hb.2 0
          (some ⟨best, actual_dest, candidates_dir, rc.1⟩, [], rc.2)

/-- The main loop over all groups, accumulating results and the collected
singleton images. -/
def processGroups (P : OOParams) (dryrun : Bool) :
    List (List String) → FSState →
      List GroupResult × List String × FSState
  | [], s => ([], [], s)
  | g :: rest, s =>
    let o1 := processGroup P dryrun g s
    let o2 := processGroups P dryrun rest o1.2.2
    (o1.1.toList ++ o2.1, o1.2.1 ++ o2.2.1, o2.2.2)

/-- The `handle_singletons` inner loop. -/
def handleSingletonsLoop (P : OOParams) (singletons_dir : String) :
    List String → FSState → FSState
  | [], s => s
  | p :: rest, s =>
    let r := handleLongPath P.md5hex8 P.handle_long_paths P.max_path_length
      false s (posixJoin singletons_dir (posixBasename p))
    let hr := handle_duplicate P.md5hex8 P.failT r.2 p r.1 P.file_handling
      P.create_backlinks P.collision_strategy
    handleSingletonsLoop P singletons_dir rest hr.2

/-- Embedding of `directory_structure.handle_singletons` (live runs only:
in dry-run the whole body is skipped). -/
def handle_singletons (P : OOParams) (singletons : List String)
    (s : FSState) : FSState :=
  let singletons_dir := posixJoin P.output_dir P.singletons_subdir
  let s := addDir s singletons_dir
  handleSingletonsLoop P singletons_dir singletons s

/-- Embedding of `directory_structure.create_output_structure`, returning
the results list alongside the final filesystem/registry/effects state. -/
def create_output_structure (P : OOParams) (dryrun : Bool)
    (similar_groups : List (List String)) (s0 : FSState) :
    List GroupResult × FSState :=
  let s := if dryrun then s0 else addDir s0 P.output_dir
  let o := processGroups P dryrun similar_groups s
  let s := if P.include_singletons ∧ o.2.1 ≠ [] ∧ ¬ dryrun then
      handle_singletons P o.2.1 o.2.2
    else o.2.2
  (o.1, s)

/-- A concrete organizer configuration (constant metrics, no failures)
used to compare dry and live runs. -/
def c3P : OOParams where
  giq := fun _ _ _ => 0
  dims := fun _ => (100, 50)
  md5hex8 := md5stub
  failT := fun _ _ => false
  naming := fun f w h => f ++ "_" ++ Nat.repr w ++ "x" ++ Nat.repr h
  output_dir := "/out"
  primary_metrics := ["m"]
  secondary_metrics := []
  metric_weights := []
  date_preference := "newest"
  metric_overrides := []
  file_handling := "copy"
  copy_best := true
  suffix := "_candidates"
  handle_long_paths := false
  max_path_length := 250
  include_singletons := false
  singletons_subdir := "singletons"
  collision_strategy := "hierarchical"
  create_backlinks := false

/-- An empty starting state for the concrete dry/live comparison. -/
def c3s : FSState := ⟨⟨∅, ∅⟩, [], []⟩

/-- A single two-image group for the concrete dry/live comparison. -/
def c3groups : List (List String) := [["/src/a.jpg", "/src/b.jpg"]]

/-- A concrete organizer configuration whose transfer oracle fails
exactly on the source `/src/a.jpg` (the selected best image). -/
def c9P : OOParams where
  giq := fun _ _ _ => 0
  dims := fun _ => (100, 50)
  md5hex8 := md5stub
  failT := fun src _ => decide (src = "/src/a.jpg")
  naming := fun f w h => f ++ "_" ++ Nat.repr w ++ "x" ++ Nat.repr h
  output_dir := "/out"
  primary_metrics := ["m"]
  secondary_metrics := []
  metric_weights := []
  date_preference := "newest"
  metric_overrides := []
  file_handling := "copy"
  copy_best := true
  suffix := "_candidates"
  handle_long_paths := false
  max_path_length := 250
  include_singletons := false
  singletons_subdir := "singletons"
  collision_strategy := "hierarchical"
  create_backlinks := false

/-- The two-image group whose best image's transfer fails. -/
def c9group : List String := ["/src/a.jpg", "/src/b.jpg"]

/-- An empty starting state for the failing-transfer run. -/
def c9s : FSState := ⟨⟨∅, ∅⟩, [], []⟩

/-! ## Supporting lemmas and claim theorems -/

lemma string_length_take (s : String) (n : Nat) :
    (strTake s n).length = min n s.length := by
  show ((s.data.take n).asString).data.length = _
  show (s.data.take n).length = _
  rw [List.length_take]
  rfl

lemma posixJoin_length_le (a b : String) :
    (posixJoin a b).length ≤ a.length + 1 + b.length := by
  rw [posixJoin]
  split
  · omega
  · split
    · rw [String.length_append]; omega
    · rw [String.length_append, String.length_append]
      have : ("/" : String).length = 1 := rfl
      omega

lemma create_safe_path_of_le (md5hex8 : String → String) (q : String)
    (max_length : Nat) (m : Bool) (hq : q.length ≤ max_length) :
    create_safe_path md5hex8 q max_length m = (q, none) := by
  simp [create_safe_path, if_pos hq]

/-- When the original path overflows the maximum and the stem is long
enough (`≥ excess + 13` characters), the shortened path produced by
`create_safe_path` has length exactly one below the maximum, and a sidecar
metadata path is produced when requested. -/
lemma create_safe_path_shortened_length (md5hex8 : String → String)
    (p : String) (max_length : Nat) (m : Bool) (dir fn name ext : String)
    (hsplit : posixSplit p = (dir, fn))
    (hsplitext : posixSplitext fn = (name, ext))
    (hplen : dir.length + 1 + fn.length = p.length)
    (hfn : name.length + ext.length = fn.length)
    (hhash : (md5hex8 name).length = 8)
    (hover : max_length < p.length)
    (hstem : p.length - max_length + 13 ≤ name.length) :
    (create_safe_path md5hex8 p max_length m).1.length ≤ max_length - 1 ∧
    (create_safe_path md5hex8 p max_length m).2
      = (if m then
          some (posixJoin dir
            ((strTake name (max 3 (name.length - (p.length - max_length) - 10))
              ++ "_" ++ md5hex8 name) ++ ".txt"))
         else none) := by
  have hnle : ¬ p.length ≤ max_length := by omega
  simp only [create_safe_path, if_neg hnle, hsplit, hsplitext]
  constructor
  · refine le_trans (posixJoin_length_le _ _) ?_
    rw [String.length_append, String.length_append, String.length_append,
        string_length_take, hhash]
    have h1 : ("_" : String).length = 1 := rfl
    rw [h1]
    have hk : max 3 (name.length - (p.length - max_length) - 10)
        = name.length - (p.length - max_length) - 10 := by omega
    rw [hk]
    omega
  · trivial

lemma string_ext {s t : String} (h : s.data = t.data) : s = t := by
  cases s; cases t; exact congrArg String.mk h

lemma string_append_left_cancel {a b c : String} (h : a ++ b = a ++ c) :
    b = c := by
  have hd : a.data ++ b.data = a.data ++ c.data := congrArg String.data h
  exact string_ext (List.append_cancel_left hd)

lemma registryLookup_cons (e : String × Finset String) (reg : Registry)
    (d : String) :
    registryLookup (e :: reg) d
      = if e.1 = d then some e.2 else registryLookup reg d := by
  rw [registryLookup, registryLookup, List.find?]
  by_cases h : e.1 = d
  · simp [h]
  · simp [h]

lemma registryLookup_seed_self (fs : FileSys) (reg : Registry) (d : String) :
    (registryLookup (seedRegistry fs reg d) d).isSome := by
  rw [seedRegistry]
  split
  · assumption
  · simp [registryLookup_cons]

lemma registryLookup_add (reg : Registry) (d nm d' : String) :
    registryLookup (registryAdd reg d nm) d'
      = if d' = d then (registryLookup reg d').map (insert nm)
        else registryLookup reg d' := by
  induction reg with
  | nil =>
    by_cases h : d' = d <;> simp [registryAdd, registryLookup, h]
  | cons e t ih =>
    have hadd : registryAdd (e :: t) d nm
        = (if e.1 = d then (e.1, insert nm e.2) else e) :: registryAdd t d nm :=
      rfl
    have hkey : (if e.1 = d then (e.1, insert nm e.2) else e).1 = e.1 := by
      split <;> rfl
    rw [hadd, registryLookup_cons, ih, registryLookup_cons, hkey]
    by_cases he : e.1 = d
    · by_cases he' : e.1 = d'
      · have hdd : d' = d := by rw [← he', he]
        simp [he, he', hdd]
      · have hdd : ¬ d' = d := by rw [← he]; intro hc; exact he' hc.symm
        simp [he', hdd]
    · by_cases he' : e.1 = d'
      · have hdd : ¬ d' = d := by intro hc; rw [← hc] at he; exact he he'
        simp [he, he', hdd]
      · by_cases hdd : d' = d <;> simp [he, he', hdd]

lemma registryEntry_mono_add (reg : Registry) (d nm d' : String) :
    registryEntry reg d' ⊆ registryEntry (registryAdd reg d nm) d' := by
  rw [registryEntry, registryEntry, registryLookup_add]
  by_cases h : d' = d
  · rw [if_pos h]
    cases hl : registryLookup reg d' with
    | none => simp
    | some s => simp [Finset.subset_insert]
  · rw [if_neg h]

lemma registryLookup_add_isSome (reg : Registry) (d nm d' : String)
    (h : (registryLookup reg d').isSome) :
    (registryLookup (registryAdd reg d nm) d').isSome := by
  rw [registryLookup_add]
  by_cases hd : d' = d
  · rw [if_pos hd]
    cases hl : registryLookup reg d' with
    | none => rw [hl] at h; simp at h
    | some s => simp
  · rw [if_neg hd]; exact h

lemma registryAdd_mem_self (reg : Registry) (d nm : String)
    (h : (registryLookup reg d).isSome) :
    nm ∈ registryEntry (registryAdd reg d nm) d := by
  rw [registryEntry, registryLookup_add, if_pos rfl]
  cases hl : registryLookup reg d with
  | none => rw [hl] at h; simp at h
  | some s => simp

lemma registryEntry_mono_seed (fs : FileSys) (reg : Registry) (d d' : String) :
    registryEntry reg d' ⊆ registryEntry (seedRegistry fs reg d) d' := by
  rw [seedRegistry]
  split
  · exact subset_rfl
  · rename_i hns
    rw [registryEntry, registryEntry, registryLookup_cons]
    by_cases hd : d = d'
    · subst hd
      have : registryLookup reg d = none := by
        cases hl : registryLookup reg d with
        | none => rfl
        | some s => rw [hl] at hns; simp at hns
      simp [this]
    · simp [hd]

lemma registryLookup_seed_isSome (fs : FileSys) (reg : Registry)
    (d d' : String) (h : (registryLookup reg d').isSome) :
    (registryLookup (seedRegistry fs reg d) d').isSome := by
  rw [seedRegistry]
  split
  · exact h
  · rw [registryLookup_cons]
    by_cases hd : d = d'
    · simp [hd]
    · simp [hd]; exact h

lemma posixSplit_snd_data (p : String) :
    ((posixSplit p).2).data
      = (p.data.reverse.takeWhile (fun c => decide (c ≠ '/'))).reverse := rfl

lemma posixSplit_snd_no_slash (p : String) :
    '/' ∉ ((posixSplit p).2).data := by
  rw [posixSplit_snd_data]
  intro hmem
  rw [List.mem_reverse] at hmem
  have := List.mem_takeWhile_imp hmem
  simp at this

lemma posixSplitext_fst_data_sub (p : String) :
    ∀ c ∈ ((posixSplitext p).1).data, c ∈ p.data := by
  intro c hc
  dsimp only [posixSplitext] at hc
  split at hc
  · split at hc
    · exact List.mem_of_mem_take hc
    · exact hc
  · exact hc

lemma no_slash_not_startsWith (s : String) (h : s.data.head? ≠ some '/') :
    strStartsWith s "/" = false := by
  rw [strStartsWith]
  cases hd : s.data with
  | nil => rfl
  | cons c l =>
    rw [hd] at h
    have hc : ¬ ('/' = c) := fun hcc => h (by rw [List.head?, hcc])
    show List.isPrefixOf ['/'] (c :: l) = false
    simp [List.isPrefixOf, hc]

lemma not_startsWith_of_no_slash (s : String) (h : '/' ∉ s.data) :
    strStartsWith s "/" = false := by
  apply no_slash_not_startsWith
  cases hd : s.data with
  | nil => simp
  | cons c l =>
    intro hc
    simp only [List.head?, Option.some.injEq] at hc
    exact h (by rw [hd, ← hc]; exact List.mem_cons_self _ _)

lemma head_append_underscore (a s2 s3 s4 : String)
    (ha : '/' ∉ a.data) (h2 : s2.data.head? = some '_') :
    strStartsWith (a ++ s2 ++ s3 ++ s4) "/" = false := by
  apply no_slash_not_startsWith
  have hdata : (a ++ s2 ++ s3 ++ s4).data
      = a.data ++ (s2.data ++ (s3.data ++ s4.data)) := by
    show a.data ++ s2.data ++ s3.data ++ s4.data = _
    simp [List.append_assoc]
  rw [hdata]
  cases hda : a.data with
  | nil =>
    cases hds : s2.data with
    | nil => rw [hds] at h2; simp at h2
    | cons c l =>
      rw [hds] at h2
      simp only [List.head?, Option.some.injEq] at h2
      simp [h2]
  | cons c l =>
    have : c ≠ '/' := by
      intro hc
      exact ha (by rw [hda, hc]; exact List.mem_cons_self _ _)
    simp [this]

/-- The numeric loop's result is free: its name is unclaimed and its full
path does not exist. -/
lemma numericResult_spec (fs : FileSys) (entry : Finset String)
    (dest_dir name ext : String) :
    numericResult fs entry dest_dir name ext ∉ entry ∧
    ¬ pathExists fs
      (posixJoin dest_dir (numericResult fs entry dest_dir name ext)) :=
  Nat.find_spec (numericFree_exists fs entry dest_dir name ext)

lemma numericName_no_start_slash (name ext : String) (k : Nat)
    (hn : '/' ∉ name.data) :
    strStartsWith (numericName name ext k) "/" = false :=
  head_append_underscore name "_col_" (Nat.repr k) ext hn rfl

lemma posixJoin_inj_right (d nm1 nm2 : String)
    (h1 : strStartsWith nm1 "/" = false) (h2 : strStartsWith nm2 "/" = false)
    (heq : posixJoin d nm1 = posixJoin d nm2) : nm1 = nm2 := by
  rw [posixJoin, posixJoin, h1, h2] at heq
  simp only [Bool.false_eq_true, if_false] at heq
  by_cases hd : d = "" ∨ strEndsWith d "/" = true
  · rw [if_pos hd, if_pos hd] at heq
    exact string_append_left_cancel heq
  · rw [if_neg hd, if_neg hd] at heq
    rw [String.append_assoc, String.append_assoc] at heq
    exact string_append_left_cancel (string_append_left_cancel heq)

set_option maxHeartbeats 2000000 in
/-- Case analysis of `get_unique_path`: every call returns a basename
`nm` joined onto the destination directory (the first branch returns the
desired path itself, whose basename is the desired basename), records `nm`
into the seeded registry, and `nm` is unclaimed in the seeded entry with
its full path absent from the filesystem. -/
lemma get_unique_path_classify (md5hex8 : String → String) (fs : FileSys)
    (reg0 : Registry) (dest_path : String) (sp : Option String)
    (strat : String) :
    ∃ nm : String,
      ((get_unique_path md5hex8 fs reg0 dest_path sp strat).1 = dest_path ∧
          nm = (posixSplit dest_path).2 ∨
        (get_unique_path md5hex8 fs reg0 dest_path sp strat).1
          = posixJoin (posixSplit dest_path).1 nm) ∧
      strStartsWith nm "/" = false ∧
      (get_unique_path md5hex8 fs reg0 dest_path sp strat).2
        = registryAdd (seedRegistry fs reg0 (posixSplit dest_path).1)
            (posixSplit dest_path).1 nm ∧
      nm ∉ registryEntry (seedRegistry fs reg0 (posixSplit dest_path).1)
            (posixSplit dest_path).1 ∧
      ¬ pathExists fs ((get_unique_path md5hex8 fs reg0 dest_path sp strat).1) := by
  classical
  have hfnm : '/' ∉ ((posixSplit dest_path).2).data :=
    posixSplit_snd_no_slash dest_path
  have hnme : '/' ∉ ((posixSplitext (posixSplit dest_path).2).1).data :=
    fun hc => hfnm (posixSplitext_fst_data_sub _ _ hc)
  simp only [get_unique_path]
  by_cases h1 : (posixSplit dest_path).2
        ∉ registryEntry (seedRegistry fs reg0 (posixSplit dest_path).1)
            (posixSplit dest_path).1
      ∧ ¬ pathExists fs dest_path
  · rw [if_pos h1]
    exact ⟨(posixSplit dest_path).2, Or.inl ⟨rfl, rfl⟩,
      not_startsWith_of_no_slash _ hfnm, rfl, h1.1, h1.2⟩
  · rw [if_neg h1]
    have hnum :
        ∃ nm : String,
          ((posixJoin (posixSplit dest_path).1
              (numericResult fs
                (registryEntry (seedRegistry fs reg0 (posixSplit dest_path).1)
                  (posixSplit dest_path).1)
                (posixSplit dest_path).1
                ((posixSplitext (posixSplit dest_path).2).1)
                ((posixSplitext (posixSplit dest_path).2).2)),
            registryAdd (seedRegistry fs reg0 (posixSplit dest_path).1)
              (posixSplit dest_path).1
              (numericResult fs
                (registryEntry (seedRegistry fs reg0 (posixSplit dest_path).1)
                  (posixSplit dest_path).1)
                (posixSplit dest_path).1
                ((posixSplitext (posixSplit dest_path).2).1)
                ((posixSplitext (posixSplit dest_path).2).2))).1 = dest_path ∧
              nm = (posixSplit dest_path).2 ∨
            (posixJoin (posixSplit dest_path).1
              (numericResult fs
                (registryEntry (seedRegistry fs reg0 (posixSplit dest_path).1)
                  (posixSplit dest_path).1)
                (posixSplit dest_path).1
                ((posixSplitext (posixSplit dest_path).2).1)
                ((posixSplitext (posixSplit dest_path).2).2)),
            registryAdd (seedRegistry fs reg0 (posixSplit dest_path).1)
              (posixSplit dest_path).1
              (numericResult fs
                (registryEntry (seedRegistry fs reg0 (posixSplit dest_path).1)
                  (posixSplit dest_path).1)
                (posixSplit dest_path).1
                ((posixSplitext (posixSplit dest_path).2).1)
                ((posixSplitext (posixSplit dest_path).2).2))).1
              = posixJoin (posixSplit dest_path).1 nm) ∧
          strStartsWith nm "/" = false ∧
          (posixJoin (posixSplit dest_path).1
              (numericResult fs
                (registryEntry (seedRegistry fs reg0 (posixSplit dest_path).1)
                  (posixSplit dest_path).1)
                (posixSplit dest_path).1
                ((posixSplitext (posixSplit dest_path).2).1)
                ((posixSplitext (posixSplit dest_path).2).2)),
            registryAdd (seedRegistry fs reg0 (posixSplit dest_path).1)
              (posixSplit dest_path).1
              (numericResult fs
                (registryEntry (seedRegistry fs reg0 (posixSplit dest_path).1)
                  (posixSplit dest_path).1)
                (posixSplit dest_path).1
                ((posixSplitext (posixSplit dest_path).2).1)
                ((posixSplitext (posixSplit dest_path).2).2))).2
            = registryAdd (seedRegistry fs reg0 (posixSplit dest_path).1)
                (posixSplit dest_path).1 nm ∧
          nm ∉ registryEntry (seedRegistry fs reg0 (posixSplit dest_path).1)
                (posixSplit dest_path).1 ∧
          ¬ pathExists fs
            ((posixJoin (posixSplit dest_path).1
              (numericResult fs
                (registryEntry (seedRegistry fs reg0 (posixSplit dest_path).1)
                  (posixSplit dest_path).1)
                (posixSplit dest_path).1
                ((posixSplitext (posixSplit dest_path).2).1)
                ((posixSplitext (posixSplit dest_path).2).2)),
            registryAdd (seedRegistry fs reg0 (posixSplit dest_path).1)
              (posixSplit dest_path).1
              (numericResult fs
                (registryEntry (seedRegistry fs reg0 (posixSplit dest_path).1)
                  (posixSplit dest_path).1)
                (posixSplit dest_path).1
                ((posixSplitext (posixSplit dest_path).2).1)
                ((posixSplitext (posixSplit dest_path).2).2))).1) := by
      obtain ⟨hfree1, hfree2⟩ := numericResult_spec fs
        (registryEntry (seedRegistry fs reg0 (posixSplit dest_path).1)
          (posixSplit dest_path).1)
        (posixSplit dest_path).1
        ((posixSplitext (posixSplit dest_path).2).1)
        ((posixSplitext (posixSplit dest_path).2).2)
      exact ⟨_, Or.inr rfl, numericName_no_start_slash _ _ _ hnme, rfl,
        hfree1, hfree2⟩
    by_cases hA : strat = "hierarchical" ∨ strat = "parent_only"
    · rw [if_pos hA]
      cases sp with
      | none =>
        dsimp only
        by_cases hPO : strat = "parent_only"
        · rw [if_pos hPO]
          exact hnum
        · rw [if_neg hPO]
          by_cases hB : strat = "hierarchical" ∨ strat = "hash"
          · rw [if_pos hB]
            exact hnum
          · rw [if_neg hB]
            exact hnum
      | some s =>
        dsimp only
        by_cases hp : ((posixSplitext (posixSplit dest_path).2).1 ++ "_" ++
              posixBasename (posixDirname s) ++
              (posixSplitext (posixSplit dest_path).2).2)
            ∉ registryEntry (seedRegistry fs reg0 (posixSplit dest_path).1)
                (posixSplit dest_path).1
            ∧ ¬ pathExists fs (posixJoin (posixSplit dest_path).1
                ((posixSplitext (posixSplit dest_path).2).1 ++ "_" ++
                  posixBasename (posixDirname s) ++
                  (posixSplitext (posixSplit dest_path).2).2))
        · rw [if_pos hp]
          exact ⟨_, Or.inr rfl,
            head_append_underscore _ "_" _ _ hnme rfl, rfl, hp.1, hp.2⟩
        · rw [if_neg hp]
          by_cases hPO : strat = "parent_only"
          · rw [if_pos hPO]
            exact hnum
          · rw [if_neg hPO]
            have hB : strat = "hierarchical" ∨ strat = "hash" :=
              Or.inl (hA.resolve_right hPO)
            rw [if_pos hB]
            dsimp only
            by_cases hh : ((posixSplitext (posixSplit dest_path).2).1 ++ "_" ++
                  md5hex8 s ++ (posixSplitext (posixSplit dest_path).2).2)
                ∉ registryEntry (seedRegistry fs reg0 (posixSplit dest_path).1)
                    (posixSplit dest_path).1
                ∧ ¬ pathExists fs (posixJoin (posixSplit dest_path).1
                    ((posixSplitext (posixSplit dest_path).2).1 ++ "_" ++
                      md5hex8 s ++ (posixSplitext (posixSplit dest_path).2).2))
            · rw [if_pos hh]
              exact ⟨_, Or.inr rfl,
                head_append_underscore _ "_" _ _ hnme rfl, rfl, hh.1, hh.2⟩
            · rw [if_neg hh]
              exact hnum
    · rw [if_neg hA]
      have hPO : ¬ strat = "parent_only" := fun hc => hA (Or.inr hc)
      dsimp only
      rw [if_neg hPO]
      by_cases hB : strat = "hierarchical" ∨ strat = "hash"
      · rw [if_pos hB]
        cases sp with
        | none =>
          exact hnum
        | some s =>
          dsimp only
          by_cases hh : ((posixSplitext (posixSplit dest_path).2).1 ++ "_" ++
                md5hex8 s ++ (posixSplitext (posixSplit dest_path).2).2)
              ∉ registryEntry (seedRegistry fs reg0 (posixSplit dest_path).1)
                  (posixSplit dest_path).1
              ∧ ¬ pathExists fs (posixJoin (posixSplit dest_path).1
                  ((posixSplitext (posixSplit dest_path).2).1 ++ "_" ++
                    md5hex8 s ++ (posixSplitext (posixSplit dest_path).2).2))
          · rw [if_pos hh]
            exact ⟨_, Or.inr rfl,
              head_append_underscore _ "_" _ _ hnme rfl, rfl, hh.1, hh.2⟩
          · rw [if_neg hh]
            exact hnum
      · rw [if_neg hB]
        exact hnum

set_option maxHeartbeats 2000000 in
/-- C4 (confirmed): under the `hierarchical` strategy with a source path,
when the desired basename is already claimed in its directory,
`get_unique_path` returns the first free name in exactly the order:
parent-directory suffix (`name_parentDir.ext`), then source-path-hash
suffix (`name_hash.ext`), then numeric suffixes `name_col_1.ext`,
`name_col_2.ext`, ... ("free" = unclaimed in the registry entry and not
existing on disk). -/
theorem c4_hierarchical_order (md5hex8 : String → String) (fs : FileSys)
    (reg0 : Registry) (dest_path sp : String)
    (hclaimed : (posixSplit dest_path).2
        ∈ registryEntry (seedRegistry fs reg0 (posixSplit dest_path).1)
            (posixSplit dest_path).1) :
    ∃ k : Nat,
      (fun cand : Nat → String =>
        (get_unique_path md5hex8 fs reg0 dest_path (some sp) "hierarchical").1
            = posixJoin (posixSplit dest_path).1 (cand k) ∧
        (cand k ∉ registryEntry (seedRegistry fs reg0 (posixSplit dest_path).1)
              (posixSplit dest_path).1 ∧
          ¬ pathExists fs (posixJoin (posixSplit dest_path).1 (cand k))) ∧
        ∀ m < k,
          ¬ (cand m ∉ registryEntry
                (seedRegistry fs reg0 (posixSplit dest_path).1)
                (posixSplit dest_path).1 ∧
             ¬ pathExists fs (posixJoin (posixSplit dest_path).1 (cand m))))
      (fun n =>
        match n with
        | 0 => (posixSplitext (posixSplit dest_path).2).1 ++ "_" ++
            posixBasename (posixDirname sp) ++
            (posixSplitext (posixSplit dest_path).2).2
        | 1 => (posixSplitext (posixSplit dest_path).2).1 ++ "_" ++
            md5hex8 sp ++ (posixSplitext (posixSplit dest_path).2).2
        | Nat.succ (Nat.succ m) =>
            numericName ((posixSplitext (posixSplit dest_path).2).1)
              ((posixSplitext (posixSplit dest_path).2).2) (m + 1)) := by
  classical
  have h1 : ¬ ((posixSplit dest_path).2
        ∉ registryEntry (seedRegistry fs reg0 (posixSplit dest_path).1)
            (posixSplit dest_path).1
      ∧ ¬ pathExists fs dest_path) := fun hc => hc.1 hclaimed
  by_cases hp : ((posixSplitext (posixSplit dest_path).2).1 ++ "_" ++
        posixBasename (posixDirname sp) ++
        (posixSplitext (posixSplit dest_path).2).2)
      ∉ registryEntry (seedRegistry fs reg0 (posixSplit dest_path).1)
          (posixSplit dest_path).1
      ∧ ¬ pathExists fs (posixJoin (posixSplit dest_path).1
          ((posixSplitext (posixSplit dest_path).2).1 ++ "_" ++
            posixBasename (posixDirname sp) ++
            (posixSplitext (posixSplit dest_path).2).2))
  · refine ⟨0, ?_, hp, fun m hm => absurd hm (Nat.not_lt_zero m)⟩
    simp only [get_unique_path]
    rw [if_neg h1]
    rw [if_pos hp]
    rfl
  · by_cases hh : ((posixSplitext (posixSplit dest_path).2).1 ++ "_" ++
          md5hex8 sp ++ (posixSplitext (posixSplit dest_path).2).2)
        ∉ registryEntry (seedRegistry fs reg0 (posixSplit dest_path).1)
            (posixSplit dest_path).1
        ∧ ¬ pathExists fs (posixJoin (posixSplit dest_path).1
            ((posixSplitext (posixSplit dest_path).2).1 ++ "_" ++
              md5hex8 sp ++ (posixSplitext (posixSplit dest_path).2).2))
    · refine ⟨1, ?_, hh, ?_⟩
      · simp only [get_unique_path]
        rw [if_neg h1]
        rw [if_neg hp]
        rw [if_pos hh]
        rfl
      · intro m hm
        match m, hm with
        | 0, _ => exact hp
    · refine ⟨numericCounter fs
          (registryEntry (seedRegistry fs reg0 (posixSplit dest_path).1)
            (posixSplit dest_path).1)
          (posixSplit dest_path).1
          ((posixSplitext (posixSplit dest_path).2).1)
          ((posixSplitext (posixSplit dest_path).2).2) + 2, ?_, ?_, ?_⟩
      · simp only [get_unique_path]
        rw [if_neg h1]
        rw [if_neg hp]
        rw [if_neg hh]
        rfl
      · exact Nat.find_spec (numericFree_exists fs
          (registryEntry (seedRegistry fs reg0 (posixSplit dest_path).1)
            (posixSplit dest_path).1)
          (posixSplit dest_path).1
          ((posixSplitext (posixSplit dest_path).2).1)
          ((posixSplitext (posixSplit dest_path).2).2))
      · intro m hm
        match m, hm with
        | 0, _ => exact hp
        | 1, _ => exact hh
        | Nat.succ (Nat.succ j), hm =>
          have hj : j < numericCounter fs
              (registryEntry (seedRegistry fs reg0 (posixSplit dest_path).1)
                (posixSplit dest_path).1)
              (posixSplit dest_path).1
              ((posixSplitext (posixSplit dest_path).2).1)
              ((posixSplitext (posixSplit dest_path).2).2) := by omega
          exact Nat.find_min (numericFree_exists fs
            (registryEntry (seedRegistry fs reg0 (posixSplit dest_path).1)
              (posixSplit dest_path).1)
            (posixSplit dest_path).1
            ((posixSplitext (posixSplit dest_path).2).1)
            ((posixSplitext (posixSplit dest_path).2).2)) hj

/-- Witness for C4: desired path `/out/a.jpg` with `a.jpg` and the
parent-suffixed `a_srcdir.jpg` both already claimed for `/out`, from
source `/srcdir/a.jpg`. -/
theorem c4_witness :
    ∃ k : Nat,
      (fun cand : Nat → String =>
        (get_unique_path md5stub
            ⟨∅, ∅⟩
            [("/out", {"a.jpg", "a_srcdir.jpg"})] "/out/a.jpg"
            (some "/srcdir/a.jpg") "hierarchical").1
            = posixJoin (posixSplit "/out/a.jpg").1 (cand k) ∧
        (cand k ∉ registryEntry
              (seedRegistry ⟨∅, ∅⟩
                [("/out", {"a.jpg", "a_srcdir.jpg"})] (posixSplit "/out/a.jpg").1)
              (posixSplit "/out/a.jpg").1 ∧
          ¬ pathExists ⟨∅, ∅⟩
            (posixJoin (posixSplit "/out/a.jpg").1 (cand k))) ∧
        ∀ m < k,
          ¬ (cand m ∉ registryEntry
                (seedRegistry ⟨∅, ∅⟩
                  [("/out", {"a.jpg", "a_srcdir.jpg"})] (posixSplit "/out/a.jpg").1)
                (posixSplit "/out/a.jpg").1 ∧
             ¬ pathExists ⟨∅, ∅⟩
               (posixJoin (posixSplit "/out/a.jpg").1 (cand m))))
      (fun n =>
        match n with
        | 0 => (posixSplitext (posixSplit "/out/a.jpg").2).1 ++ "_" ++
            posixBasename (posixDirname "/srcdir/a.jpg") ++
            (posixSplitext (posixSplit "/out/a.jpg").2).2
        | 1 => (posixSplitext (posixSplit "/out/a.jpg").2).1 ++ "_" ++
            md5stub "/srcdir/a.jpg" ++ (posixSplitext (posixSplit "/out/a.jpg").2).2
        | Nat.succ (Nat.succ m) =>
            numericName ((posixSplitext (posixSplit "/out/a.jpg").2).1)
              ((posixSplitext (posixSplit "/out/a.jpg").2).2) (m + 1)) :=
  c4_hierarchical_order md5stub ⟨∅, ∅⟩
    [("/out", {"a.jpg", "a_srcdir.jpg"})] "/out/a.jpg" "/srcdir/a.jpg"
    (by decide)

set_option maxHeartbeats 2000000 in
/-- C5 (confirmed): every `get_unique_path` call returns a path whose
basename is not in the registry entry for the destination directory at
call time (after lazy seeding) and which does not exist on disk; the
basename is recorded in the registry by the call; registry entries only
grow; and any later call against any further-grown registry for the same
directory returns a different path, so no two calls for one directory in
one run return the same path.  If the desired basename is unclaimed and
the desired path absent, the desired path is returned unchanged. -/
theorem c5_get_unique_path_fresh (md5hex8 : String → String) (fs : FileSys)
    (reg0 : Registry) (dest_path : String) (sp : Option String)
    (strat : String)
    (hnorm : posixJoin (posixSplit dest_path).1 (posixSplit dest_path).2
        = dest_path) :
    (((posixSplit dest_path).2
          ∉ registryEntry (seedRegistry fs reg0 (posixSplit dest_path).1)
              (posixSplit dest_path).1 ∧
        ¬ pathExists fs dest_path) →
      (get_unique_path md5hex8 fs reg0 dest_path sp strat).1 = dest_path) ∧
    (∃ nm : String,
      (get_unique_path md5hex8 fs reg0 dest_path sp strat).1
          = posixJoin (posixSplit dest_path).1 nm ∧
      nm ∉ registryEntry (seedRegistry fs reg0 (posixSplit dest_path).1)
            (posixSplit dest_path).1 ∧
      ¬ pathExists fs ((get_unique_path md5hex8 fs reg0 dest_path sp strat).1) ∧
      nm ∈ registryEntry
            (get_unique_path md5hex8 fs reg0 dest_path sp strat).2
            (posixSplit dest_path).1) ∧
    (∀ d' : String,
      registryEntry reg0 d'
          ⊆ registryEntry
              (get_unique_path md5hex8 fs reg0 dest_path sp strat).2 d' ∧
      ((registryLookup reg0 d').isSome →
        (registryLookup
          (get_unique_path md5hex8 fs reg0 dest_path sp strat).2 d').isSome)) ∧
    (registryLookup (get_unique_path md5hex8 fs reg0 dest_path sp strat).2
        (posixSplit dest_path).1).isSome ∧
    (∀ (fs2 : FileSys) (reg2 : Registry) (dp2 : String) (sp2 : Option String)
        (strat2 : String),
      posixJoin (posixSplit dp2).1 (posixSplit dp2).2 = dp2 →
      (posixSplit dp2).1 = (posixSplit dest_path).1 →
      (∀ d' : String,
        registryEntry (get_unique_path md5hex8 fs reg0 dest_path sp strat).2 d'
            ⊆ registryEntry reg2 d' ∧
        ((registryLookup
            (get_unique_path md5hex8 fs reg0 dest_path sp strat).2 d').isSome →
          (registryLookup reg2 d').isSome)) →
      (get_unique_path md5hex8 fs2 reg2 dp2 sp2 strat2).1
        ≠ (get_unique_path md5hex8 fs reg0 dest_path sp strat).1) := by
  classical
  obtain ⟨nm, hdisj, hstart, hreg, hentry, hex⟩ :=
    get_unique_path_classify md5hex8 fs reg0 dest_path sp strat
  have hout1 : (get_unique_path md5hex8 fs reg0 dest_path sp strat).1
      = posixJoin (posixSplit dest_path).1 nm := by
    rcases hdisj with ⟨h1, h2⟩ | h
    · rw [h1, h2]; exact hnorm.symm
    · exact h
  have hmem : nm ∈ registryEntry
      (get_unique_path md5hex8 fs reg0 dest_path sp strat).2
      (posixSplit dest_path).1 := by
    rw [hreg]
    exact registryAdd_mem_self _ _ _ (registryLookup_seed_self fs reg0 _)
  have hsome : (registryLookup
      (get_unique_path md5hex8 fs reg0 dest_path sp strat).2
      (posixSplit dest_path).1).isSome := by
    rw [hreg]
    exact registryLookup_add_isSome _ _ _ _ (registryLookup_seed_self fs reg0 _)
  refine ⟨?_, ⟨nm, hout1, hentry, hex, hmem⟩, ?_, hsome, ?_⟩
  · intro hfree
    simp only [get_unique_path]
    rw [if_pos hfree]
  · intro d'
    constructor
    · rw [hreg]
      exact subset_trans (registryEntry_mono_seed fs reg0 _ d')
        (registryEntry_mono_add _ _ _ d')
    · intro hs
      rw [hreg]
      exact registryLookup_add_isSome _ _ _ _
        (registryLookup_seed_isSome fs reg0 _ d' hs)
  · intro fs2 reg2 dp2 sp2 strat2 hnorm2 hdir hmono
    obtain ⟨nm2, hdisj2, hstart2, hreg2, hentry2, hex2⟩ :=
      get_unique_path_classify md5hex8 fs2 reg2 dp2 sp2 strat2
    have hout2 : (get_unique_path md5hex8 fs2 reg2 dp2 sp2 strat2).1
        = posixJoin (posixSplit dp2).1 nm2 := by
      rcases hdisj2 with ⟨h1, h2⟩ | h
      · rw [h1, h2]; exact hnorm2.symm
      · exact h
    have hnm_in : nm ∈ registryEntry reg2 (posixSplit dest_path).1 :=
      (hmono (posixSplit dest_path).1).1 hmem
    have hsome2 : (registryLookup reg2 (posixSplit dest_path).1).isSome :=
      (hmono (posixSplit dest_path).1).2 hsome
    have hseed2 : seedRegistry fs2 reg2 (posixSplit dp2).1 = reg2 := by
      rw [seedRegistry, if_pos]
      rw [hdir]
      exact hsome2
    have hne : nm2 ≠ nm := by
      intro hcc
      apply hentry2
      rw [hseed2, hdir, hcc]
      exact hnm_in
    rw [hout2, hout1, hdir]
    intro hpp
    exact hne (posixJoin_inj_right _ _ _ hstart2 hstart hpp)

/-- Witness for C5: in a fresh run (empty registry, empty filesystem) the
desired path `/out/a.jpg` is returned unchanged. -/
theorem c5_witness :
    (get_unique_path md5stub ⟨∅, ∅⟩ [] "/out/a.jpg" none "hierarchical").1
      = "/out/a.jpg" :=
  (c5_get_unique_path_fresh md5stub ⟨∅, ∅⟩ [] "/out/a.jpg" none
      "hierarchical" (by decide)).1 (by decide)

/-- C7 (amended): `create_safe_path` returns a path within the maximum
(together with a sidecar path) for every overlong input whose stem is long
enough — at least `excess + 13` characters, `excess` being the overflow —
and returns every within-limit path unchanged with no sidecar.  (For an
overlong path with a shorter stem the result can still exceed the
maximum; see the counterexample.) -/
theorem c7_create_safe_path_length_bound (md5hex8 : String → String)
    (p : String) (max_length : Nat) :
    (p.length ≤ max_length →
      create_safe_path md5hex8 p max_length true = (p, none)) ∧
    (∀ dir fn name ext : String,
      posixSplit p = (dir, fn) →
      posixSplitext fn = (name, ext) →
      dir.length + 1 + fn.length = p.length →
      name.length + ext.length = fn.length →
      (md5hex8 name).length = 8 →
      max_length < p.length →
      p.length - max_length + 13 ≤ name.length →
      (create_safe_path md5hex8 p max_length true).1.length ≤ max_length ∧
      ((create_safe_path md5hex8 p max_length true).2).isSome = true) := by
  constructor
  · intro h
    simp [create_safe_path, if_pos h]
  · intro dir fn name ext hsplit hsplitext hplen hfn hhash hover hstem
    obtain ⟨h1, h2⟩ := create_safe_path_shortened_length md5hex8 p max_length
      true dir fn name ext hsplit hsplitext hplen hfn hhash hover hstem
    refine ⟨le_trans h1 (by omega), ?_⟩
    rw [h2]
    rfl

/-- Witness for C7 at a concrete 67-character path with `max_length = 50`:
the stem has 60 characters, comfortably above `excess + 13 = 30`. -/
theorem c7_witness :
    (create_safe_path md5stub
        ("/d/" ++ String.mk (List.replicate 60 'n') ++ ".jpg") 50 true).1.length
        ≤ 50 ∧
    ((create_safe_path md5stub
        ("/d/" ++ String.mk (List.replicate 60 'n') ++ ".jpg") 50 true).2).isSome
        = true :=
  (c7_create_safe_path_length_bound md5stub
      ("/d/" ++ String.mk (List.replicate 60 'n') ++ ".jpg") 50).2
    "/d" (String.mk (List.replicate 60 'n') ++ ".jpg")
    (String.mk (List.replicate 60 'n')) ".jpg"
    (by decide) (by decide) (by decide) (by decide) (by decide) (by decide)
    (by decide)

set_option maxRecDepth 16384 in
/-- Counterexample to C7 as stated: a 300-character path with
`max_length = 250` whose basename stem is short (6 characters, below
`excess + 13 = 63`) is "shortened" to a path of 306 characters, exceeding
the maximum. -/
theorem c7_counterexample :
    250 < ("/" ++ String.mk (List.replicate 288 'd') ++ "/abcdef.jpg").length ∧
    ¬ ((create_safe_path md5stub
        ("/" ++ String.mk (List.replicate 288 'd') ++ "/abcdef.jpg")
        250 true).1.length ≤ 250) := by
  constructor
  · decide
  · decide

/-- C8 (amended): re-applying `create_safe_path` to an already-shortened
path is a no-op (same path back, no new sidecar) whenever that shortened
path is within the maximum — which holds in particular whenever the
original stem had at least `excess + 13` characters.  (When the shortened
path still exceeds the maximum it is shortened again with a new sidecar;
see the counterexample.) -/
theorem c8_create_safe_path_idempotent (md5hex8 : String → String)
    (p : String) (max_length : Nat) :
    (∀ (m : Bool) (q : String) (mp : Option String),
      create_safe_path md5hex8 p max_length m = (q, mp) →
      q.length ≤ max_length →
      create_safe_path md5hex8 q max_length m = (q, none)) ∧
    (∀ dir fn name ext : String,
      posixSplit p = (dir, fn) →
      posixSplitext fn = (name, ext) →
      dir.length + 1 + fn.length = p.length →
      name.length + ext.length = fn.length →
      (md5hex8 name).length = 8 →
      max_length < p.length →
      p.length - max_length + 13 ≤ name.length →
      create_safe_path md5hex8
          ((create_safe_path md5hex8 p max_length true).1) max_length true
        = ((create_safe_path md5hex8 p max_length true).1, none)) := by
  constructor
  · intro m q mp _ hq
    exact create_safe_path_of_le md5hex8 q max_length m hq
  · intro dir fn name ext hsplit hsplitext hplen hfn hhash hover hstem
    obtain ⟨h1, _⟩ := create_safe_path_shortened_length md5hex8 p max_length
      true dir fn name ext hsplit hsplitext hplen hfn hhash hover hstem
    exact create_safe_path_of_le md5hex8 _ max_length true
      (le_trans h1 (by omega))

/-- Witness for C8 at the same concrete 67-character path used for C7. -/
theorem c8_witness :
    create_safe_path md5stub
        ((create_safe_path md5stub
          ("/d/" ++ String.mk (List.replicate 60 'n') ++ ".jpg") 50 true).1)
        50 true
      = ((create_safe_path md5stub
          ("/d/" ++ String.mk (List.replicate 60 'n') ++ ".jpg") 50 true).1,
         none) :=
  (c8_create_safe_path_idempotent md5stub
      ("/d/" ++ String.mk (List.replicate 60 'n') ++ ".jpg") 50).2
    "/d" (String.mk (List.replicate 60 'n') ++ ".jpg")
    (String.mk (List.replicate 60 'n')) ".jpg"
    (by decide) (by decide) (by decide) (by decide) (by decide) (by decide)
    (by decide)

set_option maxRecDepth 16384 in
/-- Counterexample to C8 as stated: for the 300-character path with the
short stem, the first application yields a 306-character path, so the
second application is not a no-op — it shortens again and produces a new
sidecar. -/
theorem c8_counterexample :
    ¬ (create_safe_path md5stub
        ((create_safe_path md5stub
          ("/" ++ String.mk (List.replicate 288 'd') ++ "/abcdef.jpg")
          250 true).1) 250 true
      = ((create_safe_path md5stub
          ("/" ++ String.mk (List.replicate 288 'd') ++ "/abcdef.jpg")
          250 true).1, none)) := by
  decide

/-! ### Grouping lemmas -/

lemma sameGroup_symm {gs : List (Finset String)} {a b : String}
    (h : sameGroup gs a b) : sameGroup gs b a := by
  obtain ⟨g, hg, ha, hb⟩ := h
  exact ⟨g, hg, hb, ha⟩

lemma inv_unique {gs : List (Finset String)} {s : Finset String}
    (h : GroupsInv gs s) {g1 g2 : Finset String} {a : String}
    (h1 : g1 ∈ gs) (h2 : g2 ∈ gs) (ha1 : a ∈ g1) (ha2 : a ∈ g2) :
    g1 = g2 := by
  by_contra hne
  exact (Finset.disjoint_left.mp (h.2.2.1 g1 h1 g2 h2 hne) ha1) ha2

lemma sameGroup_trans {gs : List (Finset String)} {s : Finset String}
    (h : GroupsInv gs s) {a b c : String}
    (h1 : sameGroup gs a b) (h2 : sameGroup gs b c) : sameGroup gs a c := by
  obtain ⟨g1, hg1, ha, hb1⟩ := h1
  obtain ⟨g2, hg2, hb2, hc⟩ := h2
  have : g1 = g2 := inv_unique h hg1 hg2 hb1 hb2
  exact ⟨g1, hg1, ha, this ▸ hc⟩

lemma sameGroup_refl {gs : List (Finset String)} {s : Finset String}
    (h : GroupsInv gs s) {a : String} (ha : a ∈ s) : sameGroup gs a a := by
  obtain ⟨g, hg, hag⟩ := (h.2.2.2 a).mpr ha
  exact ⟨g, hg, hag, hag⟩

lemma sameGroup_mem_left {gs : List (Finset String)} {s : Finset String}
    (h : GroupsInv gs s) {a b : String} (hab : sameGroup gs a b) : a ∈ s := by
  obtain ⟨g, hg, ha, _⟩ := hab
  exact (h.2.2.2 a).mp ⟨g, hg, ha⟩

lemma sameGroup_mem_right {gs : List (Finset String)} {s : Finset String}
    (h : GroupsInv gs s) {a b : String} (hab : sameGroup gs a b) : b ∈ s :=
  sameGroup_mem_left h (sameGroup_symm hab)

lemma mergePair_eq_of (groups : List (Finset String)) (i j : String)
    (gi gj : Finset String)
    (hfi : groups.find? (fun g => decide (i ∈ g)) = some gi)
    (hfj : groups.find? (fun g => decide (j ∈ g)) = some gj)
    (hne : gi ≠ gj) :
    mergePair groups i j
      = (groups.map (fun g => if g = gi then gi ∪ gj else g)).erase gj := by
  unfold mergePair
  rw [hfi, hfj]
  exact if_neg hne

lemma union_ne_right {gs : List (Finset String)} {s : Finset String}
    (h : GroupsInv gs s) {gi gj : Finset String}
    (hgi : gi ∈ gs) (hgj : gj ∈ gs) (hne : gi ≠ gj) : gi ∪ gj ≠ gj := by
  intro hc
  have hsub : gi ⊆ gj := by
    intro c hc'
    have : c ∈ gi ∪ gj := Finset.mem_union_left _ hc'
    rwa [hc] at this
  obtain ⟨c, hcm⟩ := h.2.1 gi hgi
  exact (Finset.disjoint_left.mp (h.2.2.1 gi hgi gj hgj hne) hcm) (hsub hcm)

lemma mapped_nodup {gs : List (Finset String)} {s : Finset String}
    (h : GroupsInv gs s) {gi gj : Finset String}
    (hgi : gi ∈ gs) (hgj : gj ∈ gs) (hne : gi ≠ gj) :
    (gs.map (fun g => if g = gi then gi ∪ gj else g)).Nodup := by
  refine h.1.map_on ?_
  intro x hx y hy hxy
  have key : ∀ z ∈ gs, z ≠ gi → gi ∪ gj ≠ z := by
    intro z hz hzi hc
    have hsub : gj ⊆ z := by
      intro c hc'
      have : c ∈ gi ∪ gj := Finset.mem_union_right _ hc'
      rwa [hc] at this
    obtain ⟨c, hcm⟩ := h.2.1 gj hgj
    have hzj : z = gj := by
      by_contra hzz
      exact (Finset.disjoint_left.mp (h.2.2.1 z hz gj hgj hzz) (hsub hcm)) hcm
    rw [hzj] at hc
    exact union_ne_right h hgi hgj hne hc
  by_cases hxg : x = gi <;> by_cases hyg : y = gi
  · rw [hxg, hyg]
  · rw [if_pos hxg, if_neg hyg] at hxy
    exact absurd hxy (key y hy hyg)
  · rw [if_neg hxg, if_pos hyg] at hxy
    exact absurd hxy.symm (key x hx hxg)
  · rwa [if_neg hxg, if_neg hyg] at hxy

lemma mergePair_mem {gs : List (Finset String)} {s : Finset String}
    (h : GroupsInv gs s) {i j : String} {gi gj : Finset String}
    (hfi : gs.find? (fun g => decide (i ∈ g)) = some gi)
    (hfj : gs.find? (fun g => decide (j ∈ g)) = some gj)
    (hne : gi ≠ gj) (g : Finset String) :
    g ∈ mergePair gs i j
      ↔ g = gi ∪ gj ∨ (g ∈ gs ∧ g ≠ gi ∧ g ≠ gj) := by
  have hgi : gi ∈ gs := List.mem_of_find?_eq_some hfi
  have hgj : gj ∈ gs := List.mem_of_find?_eq_some hfj
  rw [mergePair_eq_of gs i j gi gj hfi hfj hne,
    (mapped_nodup h hgi hgj hne).mem_erase_iff]
  constructor
  · rintro ⟨hgne, hmem⟩
    rw [List.mem_map] at hmem
    obtain ⟨g0, hg0, hfg⟩ := hmem
    by_cases hg0i : g0 = gi
    · left
      rw [← hfg, if_pos hg0i]
    · right
      rw [if_neg hg0i] at hfg
      rw [← hfg]
      exact ⟨hg0, hg0i, hfg ▸ hgne⟩
  · rintro (hg | ⟨hgmem, hgi', hgj'⟩)
    · refine ⟨hg ▸ union_ne_right h hgi hgj hne, ?_⟩
      rw [List.mem_map]
      exact ⟨gi, hgi, by rw [if_pos rfl, hg]⟩
    · exact ⟨hgj', List.mem_map.mpr ⟨g, hgmem, by rw [if_neg hgi']⟩⟩

lemma mergePair_inv {gs : List (Finset String)} {s : Finset String}
    (h : GroupsInv gs s) (i j : String) :
    GroupsInv (mergePair gs i j) s := by
  cases hfi : gs.find? (fun g => decide (i ∈ g)) with
  | none =>
    have : mergePair gs i j = gs := by
      unfold mergePair
      rw [hfi]
    rwa [this]
  | some gi =>
    cases hfj : gs.find? (fun g => decide (j ∈ g)) with
    | none =>
      have : mergePair gs i j = gs := by
        unfold mergePair
        rw [hfi, hfj]
      rwa [this]
    | some gj =>
      by_cases hne : gi = gj
      · have : mergePair gs i j = gs := by
          unfold mergePair
          rw [hfi, hfj]
          exact if_pos hne
        rwa [this]
      · have hgi : gi ∈ gs := List.mem_of_find?_eq_some hfi
        have hgj : gj ∈ gs := List.mem_of_find?_eq_some hfj
        have hmm := mergePair_mem h hfi hfj hne
        refine ⟨?_, ?_, ?_, ?_⟩
        · rw [mergePair_eq_of gs i j gi gj hfi hfj hne]
          exact (mapped_nodup h hgi hgj hne).erase gj
        · intro g hg
          rcases (hmm g).mp hg with hg' | ⟨hgmem, _, _⟩
          · obtain ⟨c, hc⟩ := h.2.1 gi hgi
            exact ⟨c, hg' ▸ Finset.mem_union_left _ hc⟩
          · exact h.2.1 g hgmem
        · intro g1 hg1 g2 hg2 hne'
          rcases (hmm g1).mp hg1 with h1 | ⟨h1m, h1i, h1j⟩ <;>
            rcases (hmm g2).mp hg2 with h2 | ⟨h2m, h2i, h2j⟩
          · exact absurd (h1.trans h2.symm) hne'
          · rw [h1]
            refine Finset.disjoint_union_left.mpr ⟨?_, ?_⟩
            · exact h.2.2.1 gi hgi g2 h2m (fun hc => h2i hc.symm)
            · exact h.2.2.1 gj hgj g2 h2m (fun hc => h2j hc.symm)
          · rw [h2]
            refine Finset.disjoint_union_right.mpr ⟨?_, ?_⟩
            · exact h.2.2.1 g1 h1m gi hgi h1i
            · exact h.2.2.1 g1 h1m gj hgj h1j
          · exact h.2.2.1 g1 h1m g2 h2m hne'
        · intro x
          constructor
          · rintro ⟨g, hg, hx⟩
            rcases (hmm g).mp hg with hg' | ⟨hgmem, _, _⟩
            · rw [hg'] at hx
              rcases Finset.mem_union.mp hx with hx' | hx'
              · exact (h.2.2.2 x).mp ⟨gi, hgi, hx'⟩
              · exact (h.2.2.2 x).mp ⟨gj, hgj, hx'⟩
            · exact (h.2.2.2 x).mp ⟨g, hgmem, hx⟩
          · intro hx
            obtain ⟨g, hg, hxg⟩ := (h.2.2.2 x).mpr hx
            by_cases hgg : g = gi
            · exact ⟨gi ∪ gj, (hmm _).mpr (Or.inl rfl),
                Finset.mem_union_left _ (hgg ▸ hxg)⟩
            · by_cases hgg' : g = gj
              · exact ⟨gi ∪ gj, (hmm _).mpr (Or.inl rfl),
                  Finset.mem_union_right _ (hgg' ▸ hxg)⟩
              · exact ⟨g, (hmm _).mpr (Or.inr ⟨hg, hgg, hgg'⟩), hxg⟩

lemma mergePair_sameGroup {gs : List (Finset String)} {s : Finset String}
    (h : GroupsInv gs s) (i j a b : String) :
    sameGroup (mergePair gs i j) a b ↔
      sameGroup gs a b ∨ (sameGroup gs a i ∧ sameGroup gs b j) ∨
        (sameGroup gs a j ∧ sameGroup gs b i) := by
  cases hfi : gs.find? (fun g => decide (i ∈ g)) with
  | none =>
    have heq : mergePair gs i j = gs := by
      unfold mergePair
      rw [hfi]
    have hni : ∀ c, ¬ sameGroup gs c i := by
      rintro c ⟨g, hg, _, hig⟩
      have hs : (gs.find? (fun g => decide (i ∈ g))).isSome :=
        List.find?_isSome.mpr ⟨g, hg, by simp [hig]⟩
      rw [hfi] at hs
      simp at hs
    rw [heq]
    constructor
    · exact Or.inl
    · rintro (hab | ⟨hai, _⟩ | ⟨_, hbi⟩)
      · exact hab
      · exact absurd hai (hni a)
      · exact absurd hbi (hni b)
  | some gi =>
    cases hfj : gs.find? (fun g => decide (j ∈ g)) with
    | none =>
      have heq : mergePair gs i j = gs := by
        unfold mergePair
        rw [hfi, hfj]
      have hnj : ∀ c, ¬ sameGroup gs c j := by
        rintro c ⟨g, hg, _, hjg⟩
        have hs : (gs.find? (fun g => decide (j ∈ g))).isSome :=
          List.find?_isSome.mpr ⟨g, hg, by simp [hjg]⟩
        rw [hfj] at hs
        simp at hs
      rw [heq]
      constructor
      · exact Or.inl
      · rintro (hab | ⟨_, hbj⟩ | ⟨haj, _⟩)
        · exact hab
        · exact absurd hbj (hnj b)
        · exact absurd haj (hnj a)
    | some gj =>
      have hgi : gi ∈ gs := List.mem_of_find?_eq_some hfi
      have hgj : gj ∈ gs := List.mem_of_find?_eq_some hfj
      have hii : i ∈ gi := by
        have := List.find?_some hfi
        simpa using this
      have hjj : j ∈ gj := by
        have := List.find?_some hfj
        simpa using this
      by_cases hne : gi = gj
      · have heq : mergePair gs i j = gs := by
          unfold mergePair
          rw [hfi, hfj]
          exact if_pos hne
        rw [heq]
        constructor
        · exact Or.inl
        · rintro (hab | ⟨⟨g1, hg1, ha, hi1⟩, ⟨g2, hg2, hb, hj2⟩⟩ |
              ⟨⟨g1, hg1, ha, hj1⟩, ⟨g2, hg2, hb, hi2⟩⟩)
          · exact hab
          · have e1 : g1 = gi := inv_unique h hg1 hgi hi1 hii
            have e2 : g2 = gj := inv_unique h hg2 hgj hj2 hjj
            exact ⟨gi, hgi, e1 ▸ ha, hne ▸ e2 ▸ hb⟩
          · have e1 : g1 = gj := inv_unique h hg1 hgj hj1 hjj
            have e2 : g2 = gi := inv_unique h hg2 hgi hi2 hii
            exact ⟨gi, hgi, hne ▸ e1 ▸ ha, e2 ▸ hb⟩
      · have hmm := mergePair_mem h hfi hfj hne
        constructor
        · rintro ⟨g, hg, ha, hb⟩
          rcases (hmm g).mp hg with hg' | ⟨hgmem, _, _⟩
          · rw [hg'] at ha hb
            rcases Finset.mem_union.mp ha with ha' | ha' <;>
              rcases Finset.mem_union.mp hb with hb' | hb'
            · exact Or.inl ⟨gi, hgi, ha', hb'⟩
            · exact Or.inr (Or.inl ⟨⟨gi, hgi, ha', hii⟩, ⟨gj, hgj, hb', hjj⟩⟩)
            · exact Or.inr (Or.inr ⟨⟨gj, hgj, ha', hjj⟩, ⟨gi, hgi, hb', hii⟩⟩)
            · exact Or.inl ⟨gj, hgj, ha', hb'⟩
          · exact Or.inl ⟨g, hgmem, ha, hb⟩
        · rintro (⟨g, hg, ha, hb⟩ | ⟨⟨g1, hg1, ha, hi1⟩, ⟨g2, hg2, hb, hj2⟩⟩ |
              ⟨⟨g1, hg1, ha, hj1⟩, ⟨g2, hg2, hb, hi2⟩⟩)
          · by_cases hgg : g = gi
            · exact ⟨gi ∪ gj, (hmm _).mpr (Or.inl rfl),
                Finset.mem_union_left _ (hgg ▸ ha),
                Finset.mem_union_left _ (hgg ▸ hb)⟩
            · by_cases hgg' : g = gj
              · exact ⟨gi ∪ gj, (hmm _).mpr (Or.inl rfl),
                  Finset.mem_union_right _ (hgg' ▸ ha),
                  Finset.mem_union_right _ (hgg' ▸ hb)⟩
              · exact ⟨g, (hmm _).mpr (Or.inr ⟨hg, hgg, hgg'⟩), ha, hb⟩
          · have e1 : g1 = gi := inv_unique h hg1 hgi hi1 hii
            have e2 : g2 = gj := inv_unique h hg2 hgj hj2 hjj
            exact ⟨gi ∪ gj, (hmm _).mpr (Or.inl rfl),
              Finset.mem_union_left _ (e1 ▸ ha),
              Finset.mem_union_right _ (e2 ▸ hb)⟩
          · have e1 : g1 = gj := inv_unique h hg1 hgj hj1 hjj
            have e2 : g2 = gi := inv_unique h hg2 hgi hi2 hii
            exact ⟨gi ∪ gj, (hmm _).mpr (Or.inl rfl),
              Finset.mem_union_right _ (e1 ▸ ha),
              Finset.mem_union_left _ (e2 ▸ hb)⟩

lemma eqvGen_mono_of {r q : String → String → Prop}
    (h : ∀ x y, r x y → Relation.EqvGen q x y) :
    ∀ a b, Relation.EqvGen r a b → Relation.EqvGen q a b := by
  intro a b hab
  induction hab with
  | rel x y hr => exact h x y hr
  | refl x => exact Relation.EqvGen.refl x
  | symm x y _ ih => exact Relation.EqvGen.symm _ _ ih
  | trans x y z _ _ ih1 ih2 => exact Relation.EqvGen.trans _ _ _ ih1 ih2

lemma eqvGen_to_sameGroup {gs : List (Finset String)} {s : Finset String}
    (h : GroupsInv gs s) {r : String → String → Prop}
    (hsub : ∀ x y, r x y → sameGroup gs x y) :
    ∀ a b, Relation.EqvGen r a b →
      (a ∈ s → sameGroup gs a b) ∧ (b ∈ s → sameGroup gs a b) := by
  intro a b hab
  induction hab with
  | rel x y hr => exact ⟨fun _ => hsub x y hr, fun _ => hsub x y hr⟩
  | refl x => exact ⟨fun hx => sameGroup_refl h hx, fun hx => sameGroup_refl h hx⟩
  | symm x y _ ih =>
    exact ⟨fun hx => sameGroup_symm (ih.2 hx), fun hy => sameGroup_symm (ih.1 hy)⟩
  | trans x y z _ _ ih1 ih2 =>
    constructor
    · intro hx
      have h1 := ih1.1 hx
      have h2 := ih2.1 (sameGroup_mem_right h h1)
      exact sameGroup_trans h h1 h2
    · intro hz
      have h2 := ih2.2 hz
      have h1 := ih1.2 (sameGroup_mem_left h h2)
      exact sameGroup_trans h h1 h2

lemma sameGroup_mono_mergePair {gs : List (Finset String)} {s : Finset String}
    (h : GroupsInv gs s) (i j a b : String) (hab : sameGroup gs a b) :
    sameGroup (mergePair gs i j) a b :=
  (mergePair_sameGroup h i j a b).mpr (Or.inl hab)

lemma processPairs_inv (sim : String → String → ℚ) (t : ℚ)
    {s : Finset String} :
    ∀ (L : List (String × String)) {gs : List (Finset String)},
      GroupsInv gs s → GroupsInv (processPairs sim t L gs) s := by
  intro L
  induction L with
  | nil => intro gs h; exact h
  | cons p L ih =>
    intro gs h
    show GroupsInv (processPairs sim t L
      (if t ≤ sim p.1 p.2 then mergePair gs p.1 p.2 else gs)) s
    by_cases hs : t ≤ sim p.1 p.2
    · rw [if_pos hs]
      exact ih (mergePair_inv h p.1 p.2)
    · rw [if_neg hs]
      exact ih h

/-- The final same-group relation of the merging loop is exactly the
equivalence closure of the initial same-group relation together with the
threshold-passing pairs of the list, restricted to the id set. -/
lemma processPairs_sameGroup (sim : String → String → ℚ) (t : ℚ)
    {s : Finset String} :
    ∀ (L : List (String × String)) (gs : List (Finset String)),
      GroupsInv gs s → (∀ p ∈ L, p.1 ∈ s ∧ p.2 ∈ s) →
      ∀ a b,
        sameGroup (processPairs sim t L gs) a b ↔
          a ∈ s ∧ b ∈ s ∧
            Relation.EqvGen
              (fun x y => sameGroup gs x y ∨ ((x, y) ∈ L ∧ t ≤ sim x y))
              a b := by
  intro L
  induction L with
  | nil =>
    intro gs h _ a b
    constructor
    · intro hab
      refine ⟨sameGroup_mem_left h hab, sameGroup_mem_right h hab, ?_⟩
      exact Relation.EqvGen.rel a b (Or.inl hab)
    · rintro ⟨ha, _, heq⟩
      refine (eqvGen_to_sameGroup h ?_ a b heq).1 ha
      rintro x y (hxy | ⟨hmem, _⟩)
      · exact hxy
      · exact absurd hmem (List.not_mem_nil _)
  | cons p L ih =>
    intro gs h hL a b
    have hstep : GroupsInv
        (if t ≤ sim p.1 p.2 then mergePair gs p.1 p.2 else gs) s := by
      by_cases hs : t ≤ sim p.1 p.2
      · rw [if_pos hs]; exact mergePair_inv h p.1 p.2
      · rw [if_neg hs]; exact h
    have hshow : processPairs sim t (p :: L) gs
        = processPairs sim t L
            (if t ≤ sim p.1 p.2 then mergePair gs p.1 p.2 else gs) := rfl
    rw [hshow, ih _ hstep (fun q hq => hL q (List.mem_cons_of_mem p hq)) a b]
    constructor
    · rintro ⟨ha, hb, heq⟩
      refine ⟨ha, hb, ?_⟩
      refine eqvGen_mono_of ?_ a b heq
      rintro x y (hxy | ⟨hmem, hsim⟩)
      · by_cases hs : t ≤ sim p.1 p.2
        · rw [if_pos hs] at hxy
          rcases (mergePair_sameGroup h p.1 p.2 x y).mp hxy with
            hxy' | ⟨hx1, hy2⟩ | ⟨hx2, hy1⟩
          · exact Relation.EqvGen.rel x y (Or.inl hxy')
          · refine Relation.EqvGen.trans x p.1 y
              (Relation.EqvGen.rel x p.1 (Or.inl hx1))
              (Relation.EqvGen.trans p.1 p.2 y
                (Relation.EqvGen.rel p.1 p.2
                  (Or.inr ⟨List.mem_cons_self p L, hs⟩))
                (Relation.EqvGen.symm y p.2
                  (Relation.EqvGen.rel y p.2 (Or.inl hy2))))
          · refine Relation.EqvGen.trans x p.2 y
              (Relation.EqvGen.rel x p.2 (Or.inl hx2))
              (Relation.EqvGen.trans p.2 p.1 y
                (Relation.EqvGen.symm p.1 p.2
                  (Relation.EqvGen.rel p.1 p.2
                    (Or.inr ⟨List.mem_cons_self p L, hs⟩)))
                (Relation.EqvGen.symm y p.1
                  (Relation.EqvGen.rel y p.1 (Or.inl hy1))))
        · rw [if_neg hs] at hxy
          exact Relation.EqvGen.rel x y (Or.inl hxy)
      · exact Relation.EqvGen.rel x y
          (Or.inr ⟨List.mem_cons_of_mem p hmem, hsim⟩)
    · rintro ⟨ha, hb, heq⟩
      refine ⟨ha, hb, ?_⟩
      refine eqvGen_mono_of ?_ a b heq
      rintro x y (hxy | ⟨hmem, hsim⟩)
      · refine Relation.EqvGen.rel x y (Or.inl ?_)
        by_cases hs : t ≤ sim p.1 p.2
        · rw [if_pos hs]
          exact sameGroup_mono_mergePair h p.1 p.2 x y hxy
        · rwa [if_neg hs]
      · rcases List.mem_cons.mp hmem with hpq | hmem'
        · refine Relation.EqvGen.rel x y (Or.inl ?_)
          have hx : x = p.1 := congrArg Prod.fst hpq
          have hy : y = p.2 := congrArg Prod.snd hpq
          have hs : t ≤ sim p.1 p.2 := by rwa [hx, hy] at hsim
          rw [if_pos hs, hx, hy]
          have h1 : p.1 ∈ s := (hL p (List.mem_cons_self p L)).1
          have h2 : p.2 ∈ s := (hL p (List.mem_cons_self p L)).2
          exact (mergePair_sameGroup h p.1 p.2 p.1 p.2).mpr
            (Or.inr (Or.inl ⟨sameGroup_refl h h1, sameGroup_refl h h2⟩))
        · refine Relation.EqvGen.rel x y (Or.inr ⟨hmem', hsim⟩)

lemma mem_iff_sameGroup {gs : List (Finset String)} {s : Finset String}
    (h : GroupsInv gs s) {g : Finset String} {a : String}
    (hg : g ∈ gs) (ha : a ∈ g) :
    ∀ x, x ∈ g ↔ sameGroup gs a x := by
  intro x
  constructor
  · intro hx
    exact ⟨g, hg, ha, hx⟩
  · rintro ⟨g2, hg2, ha2, hx2⟩
    rwa [inv_unique h hg hg2 ha ha2]

/-- Two partitions of the same id set inducing the same same-group
relation consist of the same groups. -/
lemma partition_toFinset_eq {gs1 gs2 : List (Finset String)}
    {s : Finset String} (h1 : GroupsInv gs1 s) (h2 : GroupsInv gs2 s)
    (hrel : ∀ a b, sameGroup gs1 a b ↔ sameGroup gs2 a b) :
    gs1.toFinset = gs2.toFinset := by
  have key : ∀ (gsa gsb : List (Finset String)),
      GroupsInv gsa s → GroupsInv gsb s →
      (∀ a b, sameGroup gsa a b ↔ sameGroup gsb a b) →
      ∀ g ∈ gsa, g ∈ gsb := by
    intro gsa gsb ha hb hab g hg
    obtain ⟨a, hag⟩ := ha.2.1 g hg
    have has : a ∈ s := (ha.2.2.2 a).mp ⟨g, hg, hag⟩
    obtain ⟨g2, hg2, hag2⟩ := (hb.2.2.2 a).mpr has
    have : g = g2 := by
      ext x
      rw [mem_iff_sameGroup ha hg hag x, hab a x,
        ← mem_iff_sameGroup hb hg2 hag2 x]
    exact this ▸ hg2
  ext g
  simp only [List.mem_toFinset]
  exact ⟨fun hg => key gs1 gs2 h1 h2 hrel g hg,
    fun hg => key gs2 gs1 h2 h1 (fun a b => (hrel a b).symm) g hg⟩

lemma init_inv (ids : List String) (hn : ids.Nodup) :
    GroupsInv (ids.map (fun p => ({p} : Finset String))) ids.toFinset := by
  refine ⟨hn.map Finset.singleton_injective, ?_, ?_, ?_⟩
  · intro g hg
    obtain ⟨x, _, hx⟩ := List.mem_map.mp hg
    exact ⟨x, hx ▸ Finset.mem_singleton_self x⟩
  · intro g1 hg1 g2 hg2 hne
    obtain ⟨x1, _, hx1⟩ := List.mem_map.mp hg1
    obtain ⟨x2, _, hx2⟩ := List.mem_map.mp hg2
    rw [← hx1, ← hx2]
    rw [Finset.disjoint_singleton]
    intro hc
    exact hne (by rw [← hx1, ← hx2, hc])
  · intro x
    constructor
    · rintro ⟨g, hg, hx⟩
      obtain ⟨y, hy, hyg⟩ := List.mem_map.mp hg
      rw [← hyg, Finset.mem_singleton] at hx
      rw [List.mem_toFinset]
      exact hx ▸ hy
    · intro hx
      rw [List.mem_toFinset] at hx
      exact ⟨{x}, List.mem_map.mpr ⟨x, hx, rfl⟩, Finset.mem_singleton_self x⟩

lemma init_sameGroup (ids : List String) (a b : String) :
    sameGroup (ids.map (fun p => ({p} : Finset String))) a b ↔
      a = b ∧ a ∈ ids := by
  constructor
  · rintro ⟨g, hg, ha, hb⟩
    obtain ⟨x, hx, hxg⟩ := List.mem_map.mp hg
    rw [← hxg, Finset.mem_singleton] at ha hb
    exact ⟨ha.trans hb.symm, ha ▸ hx⟩
  · rintro ⟨rfl, ha⟩
    exact ⟨{a}, List.mem_map.mpr ⟨a, ha, rfl⟩, Finset.mem_singleton_self a,
      Finset.mem_singleton_self a⟩

lemma allPairs_mem : ∀ (l : List String) (p : String × String),
    p ∈ allPairs l → p.1 ∈ l ∧ p.2 ∈ l := by
  intro l
  induction l with
  | nil => intro p hp; exact absurd hp (List.not_mem_nil p)
  | cons x xs ih =>
    intro p hp
    rcases List.mem_append.mp hp with hp' | hp'
    · obtain ⟨y, hy, hyp⟩ := List.mem_map.mp hp'
      rw [← hyp]
      exact ⟨List.mem_cons_self x xs, List.mem_cons_of_mem x hy⟩
    · obtain ⟨h1, h2⟩ := ih p hp'
      exact ⟨List.mem_cons_of_mem x h1, List.mem_cons_of_mem x h2⟩

lemma allPairs_ne : ∀ (l : List String), l.Nodup →
    ∀ (p : String × String), p ∈ allPairs l → p.1 ≠ p.2 := by
  intro l
  induction l with
  | nil => intro _ p hp; exact absurd hp (List.not_mem_nil p)
  | cons x xs ih =>
    intro hn p hp
    rcases List.mem_append.mp hp with hp' | hp'
    · obtain ⟨y, hy, hyp⟩ := List.mem_map.mp hp'
      rw [← hyp]
      intro hc
      have hxy : x = y := hc
      exact (List.nodup_cons.mp hn).1 (hxy ▸ hy)
    · exact ih (List.nodup_cons.mp hn).2 p hp'

lemma allPairs_cover : ∀ (l : List String), ∀ a b : String,
    a ∈ l → b ∈ l → a ≠ b →
    (a, b) ∈ allPairs l ∨ (b, a) ∈ allPairs l := by
  intro l
  induction l with
  | nil => intro a b ha _ _; exact absurd ha (List.not_mem_nil a)
  | cons x xs ih =>
    intro a b ha hb hne
    rcases List.mem_cons.mp ha with rfl | ha'
    · have hb' : b ∈ xs := by
        rcases List.mem_cons.mp hb with rfl | hb'
        · exact absurd rfl hne
        · exact hb'
      exact Or.inl (List.mem_append.mpr (Or.inl
        (List.mem_map.mpr ⟨b, hb', rfl⟩)))
    · rcases List.mem_cons.mp hb with rfl | hb'
      · exact Or.inr (List.mem_append.mpr (Or.inl
          (List.mem_map.mpr ⟨a, ha', rfl⟩)))
      · rcases ih a b ha' hb' hne with hc | hc
        · exact Or.inl (List.mem_append.mpr (Or.inr hc))
        · exact Or.inr (List.mem_append.mpr (Or.inr hc))

/-- C1 (confirmed): for every input id set (the embedding dict's keys,
hence without duplicates), every similarity function and every threshold,
the groups returned by `group_similar_images` are pairwise disjoint, none
is empty, and their union is exactly the input id set. -/
theorem c1_grouping_partition (ids : List String)
    (sim : String → String → ℚ) (t : ℚ) (hn : ids.Nodup) :
    (group_similar_images ids sim t).Pairwise (fun g1 g2 => Disjoint g1 g2) ∧
    (∀ g ∈ group_similar_images ids sim t, g ≠ ∅) ∧
    (∀ x : String,
      (∃ g ∈ group_similar_images ids sim t, x ∈ g) ↔ x ∈ ids) := by
  have hinv : GroupsInv (group_similar_images ids sim t) ids.toFinset :=
    processPairs_inv sim t (allPairs ids) (init_inv ids hn)
  refine ⟨?_, ?_, ?_⟩
  · exact hinv.1.pairwise_of_forall_ne hinv.2.2.1
  · intro g hg
    exact Finset.nonempty_iff_ne_empty.mp (hinv.2.1 g hg)
  · intro x
    rw [hinv.2.2.2 x, List.mem_toFinset]

/-- Witness for C1 on the id list `["a", "b"]` with constant similarity
1 and threshold 1. -/
theorem c1_witness :
    (group_similar_images ["a", "b"] (fun _ _ => (1 : ℚ)) 1).Pairwise
        (fun g1 g2 => Disjoint g1 g2) ∧
    (∀ g ∈ group_similar_images ["a", "b"] (fun _ _ => (1 : ℚ)) 1, g ≠ ∅) ∧
    (∀ x : String,
      (∃ g ∈ group_similar_images ["a", "b"] (fun _ _ => (1 : ℚ)) 1, x ∈ g)
        ↔ x ∈ (["a", "b"] : List String)) :=
  c1_grouping_partition ["a", "b"] (fun _ _ => (1 : ℚ)) 1 (by decide)

/-- C6 (confirmed): the partition produced by the grouping is insensitive
to the enumeration order of the pair list (any permutation of the pair
enumeration yields the same set of groups), and — for a symmetric
similarity function, as pairwise similarity is — to the order of the id
list itself. -/
theorem c6_grouping_order_invariant (ids : List String)
    (sim : String → String → ℚ) (t : ℚ) (hn : ids.Nodup) :
    (∀ L : List (String × String), L.Perm (allPairs ids) →
      (processPairs sim t L
          (ids.map (fun p => ({p} : Finset String)))).toFinset
        = (group_similar_images ids sim t).toFinset) ∧
    (∀ ids2 : List String, ids.Perm ids2 →
      (∀ a b : String, sim a b = sim b a) →
      (group_similar_images ids sim t).toFinset
        = (group_similar_images ids2 sim t).toFinset) := by
  have hinit := init_inv ids hn
  have hgs : group_similar_images ids sim t
      = processPairs sim t (allPairs ids)
          (ids.map (fun p => ({p} : Finset String))) := rfl
  have hpairs : ∀ p ∈ allPairs ids,
      p.1 ∈ ids.toFinset ∧ p.2 ∈ ids.toFinset := by
    intro p hp
    obtain ⟨h1, h2⟩ := allPairs_mem ids p hp
    exact ⟨List.mem_toFinset.mpr h1, List.mem_toFinset.mpr h2⟩
  constructor
  · intro L hL
    have hLp : ∀ p ∈ L, p.1 ∈ ids.toFinset ∧ p.2 ∈ ids.toFinset :=
      fun p hp => hpairs p (hL.mem_iff.mp hp)
    have hinv1 : GroupsInv
        (processPairs sim t L (ids.map (fun p => ({p} : Finset String))))
        ids.toFinset := processPairs_inv sim t L hinit
    have hinv2 : GroupsInv (group_similar_images ids sim t) ids.toFinset :=
      processPairs_inv sim t (allPairs ids) hinit
    refine partition_toFinset_eq hinv1 hinv2 ?_
    intro a b
    rw [hgs, processPairs_sameGroup sim t L _ hinit hLp a b,
      processPairs_sameGroup sim t (allPairs ids) _ hinit hpairs a b]
    constructor
    · rintro ⟨ha, hb, heq⟩
      refine ⟨ha, hb, eqvGen_mono_of ?_ a b heq⟩
      rintro x y (hxy | ⟨hm, hs⟩)
      · exact Relation.EqvGen.rel x y (Or.inl hxy)
      · exact Relation.EqvGen.rel x y (Or.inr ⟨hL.mem_iff.mp hm, hs⟩)
    · rintro ⟨ha, hb, heq⟩
      refine ⟨ha, hb, eqvGen_mono_of ?_ a b heq⟩
      rintro x y (hxy | ⟨hm, hs⟩)
      · exact Relation.EqvGen.rel x y (Or.inl hxy)
      · exact Relation.EqvGen.rel x y (Or.inr ⟨hL.mem_iff.mpr hm, hs⟩)
  · intro ids2 hperm hsym
    have hn2 : ids2.Nodup := hperm.nodup_iff.mp hn
    have hseq : ids2.toFinset = ids.toFinset := by
      ext x
      rw [List.mem_toFinset, List.mem_toFinset]
      exact (hperm.mem_iff (a := x)).symm
    have hinit2' := init_inv ids2 hn2
    rw [hseq] at hinit2'
    have hpairs2 : ∀ p ∈ allPairs ids2,
        p.1 ∈ ids.toFinset ∧ p.2 ∈ ids.toFinset := by
      intro p hp
      obtain ⟨h1, h2⟩ := allPairs_mem ids2 p hp
      exact ⟨List.mem_toFinset.mpr (hperm.mem_iff.mpr h1),
        List.mem_toFinset.mpr (hperm.mem_iff.mpr h2)⟩
    have hgs2 : group_similar_images ids2 sim t
        = processPairs sim t (allPairs ids2)
            (ids2.map (fun p => ({p} : Finset String))) := rfl
    have hinv1 : GroupsInv (group_similar_images ids sim t) ids.toFinset :=
      processPairs_inv sim t (allPairs ids) hinit
    have hinv2 : GroupsInv (group_similar_images ids2 sim t) ids.toFinset :=
      processPairs_inv sim t (allPairs ids2) hinit2'
    refine partition_toFinset_eq hinv1 hinv2 ?_
    have key : ∀ (l1 l2 : List String), l1.Nodup → l1.Perm l2 →
        ∀ x y, (sameGroup (l1.map (fun p => ({p} : Finset String))) x y ∨
            ((x, y) ∈ allPairs l1 ∧ t ≤ sim x y)) →
          Relation.EqvGen (fun u v =>
            sameGroup (l2.map (fun p => ({p} : Finset String))) u v ∨
              ((u, v) ∈ allPairs l2 ∧ t ≤ sim u v)) x y := by
      intro l1 l2 hn1 hp x y hxy
      rcases hxy with hxy | ⟨hm, hs⟩
      · obtain ⟨rfl, hx⟩ := (init_sameGroup l1 x y).mp hxy
        exact Relation.EqvGen.rel x x (Or.inl ((init_sameGroup l2 x x).mpr
          ⟨rfl, hp.mem_iff.mp hx⟩))
      · obtain ⟨hx1, hy1⟩ := allPairs_mem l1 (x, y) hm
        have hxy' : x ≠ y := allPairs_ne l1 hn1 (x, y) hm
        rcases allPairs_cover l2 x y (hp.mem_iff.mp hx1)
            (hp.mem_iff.mp hy1) hxy' with hc | hc
        · exact Relation.EqvGen.rel x y (Or.inr ⟨hc, hs⟩)
        · refine Relation.EqvGen.symm y x
            (Relation.EqvGen.rel y x (Or.inr ⟨hc, ?_⟩))
          rw [hsym y x]
          exact hs
    intro a b
    rw [hgs, hgs2,
      processPairs_sameGroup sim t (allPairs ids) _ hinit hpairs a b,
      processPairs_sameGroup sim t (allPairs ids2) _ hinit2' hpairs2 a b]
    constructor
    · rintro ⟨ha, hb, heq⟩
      exact ⟨ha, hb, eqvGen_mono_of (key ids ids2 hn hperm) a b heq⟩
    · rintro ⟨ha, hb, heq⟩
      exact ⟨ha, hb, eqvGen_mono_of (key ids2 ids hn2 hperm.symm) a b heq⟩

/-- Witness for C6: three ids, the pair list enumerated in a different
order than the code's. -/
theorem c6_witness :
    (processPairs (fun _ _ => (1 : ℚ)) 1 [("b", "c"), ("a", "b"), ("a", "c")]
        ((["a", "b", "c"] : List String).map
          (fun p => ({p} : Finset String)))).toFinset
      = (group_similar_images ["a", "b", "c"]
          (fun _ _ => (1 : ℚ)) 1).toFinset :=
  (c6_grouping_order_invariant ["a", "b", "c"] (fun _ _ => (1 : ℚ)) 1
      (by decide)).1 [("b", "c"), ("a", "b"), ("a", "c")] (by decide)

/-! ### Quality-selection lemmas -/

lemma foldl_max_mem : ∀ (xs : List ℚ) (x : ℚ),
    xs.foldl max x = x ∨ xs.foldl max x ∈ xs := by
  intro xs
  induction xs with
  | nil => intro x; exact Or.inl rfl
  | cons y ys ih =>
    intro x
    show ys.foldl max (max x y) = x ∨ _ ∈ y :: ys
    rcases ih (max x y) with h | h
    · rcases max_choice x y with hm | hm
      · exact Or.inl (h.trans hm)
      · exact Or.inr (List.mem_cons.mpr (Or.inl (h.trans hm)))
    · exact Or.inr (List.mem_cons_of_mem y h)

lemma foldl_min_mem : ∀ (xs : List ℚ) (x : ℚ),
    xs.foldl min x = x ∨ xs.foldl min x ∈ xs := by
  intro xs
  induction xs with
  | nil => intro x; exact Or.inl rfl
  | cons y ys ih =>
    intro x
    show ys.foldl min (min x y) = x ∨ _ ∈ y :: ys
    rcases ih (min x y) with h | h
    · rcases min_choice x y with hm | hm
      · exact Or.inl (h.trans hm)
      · exact Or.inr (List.mem_cons.mpr (Or.inl (h.trans hm)))
    · exact Or.inr (List.mem_cons_of_mem y h)

lemma pyMax_mem (l : List ℚ) (h : l ≠ []) : pyMax l ∈ l := by
  match l, h with
  | x :: xs, _ =>
    show xs.foldl max x ∈ x :: xs
    rcases foldl_max_mem xs x with h' | h'
    · rw [h']
      exact List.mem_cons_self x xs
    · exact List.mem_cons_of_mem x h'

lemma pyMin_mem (l : List ℚ) (h : l ≠ []) : pyMin l ∈ l := by
  match l, h with
  | x :: xs, _ =>
    show xs.foldl min x ∈ x :: xs
    rcases foldl_min_mem xs x with h' | h'
    · rw [h']
      exact List.mem_cons_self x xs
    · exact List.mem_cons_of_mem x h'

lemma stage1Step_sub (giq : String → String → String → ℚ)
    (ov : List (String × String)) (dp : String) (cs : List String)
    (m : String) (h : cs ≠ []) :
    stage1Step giq ov dp cs m ≠ [] ∧
    ∀ x ∈ stage1Step giq ov dp cs m, x ∈ cs := by
  by_cases hl : cs.length ≤ 1
  · rw [stage1Step, if_pos hl]
    exact ⟨h, fun x hx => hx⟩
  · have heq : stage1Step giq ov dp cs m
        = ((cs.map (fun img => (img, giq img m (prefOf ov dp m)))).filter
            (fun q => decide (q.2 = pyMax ((cs.map
              (fun img => (img, giq img m (prefOf ov dp m)))).map
              (fun q => q.2))))).map (fun q => q.1) := by
      rw [stage1Step, if_neg hl]
    rw [heq]
    set qualities := cs.map (fun img => (img, giq img m (prefOf ov dp m)))
      with hqual
    constructor
    · intro hc
      have hq1 : qualities ≠ [] := fun hm => h (List.map_eq_nil.mp hm)
      have hq2 : qualities.map (fun q => q.2) ≠ [] :=
        fun hm => hq1 (List.map_eq_nil.mp hm)
      obtain ⟨q, hq, hq2'⟩ := List.mem_map.mp (pyMax_mem _ hq2)
      have hqf : q ∈ qualities.filter (fun q =>
          decide (q.2 = pyMax (qualities.map (fun q => q.2)))) :=
        List.mem_filter.mpr ⟨hq, by simp [hq2']⟩
      have hfe : qualities.filter (fun q =>
          decide (q.2 = pyMax (qualities.map (fun q => q.2)))) = [] :=
        List.map_eq_nil.mp hc
      rw [hfe] at hqf
      exact List.not_mem_nil q hqf
    · intro x hx
      obtain ⟨q, hqf, hqx⟩ := List.mem_map.mp hx
      obtain ⟨img, him, hq'⟩ := List.mem_map.mp (List.mem_of_mem_filter hqf)
      rw [← hqx, ← hq']
      exact him

lemma stage1_fold_sub (giq : String → String → String → ℚ)
    (ov : List (String × String)) (dp : String) :
    ∀ (ms : List String) (cs : List String), cs ≠ [] →
      ms.foldl (stage1Step giq ov dp) cs ≠ [] ∧
      ∀ x ∈ ms.foldl (stage1Step giq ov dp) cs, x ∈ cs := by
  intro ms
  induction ms with
  | nil => intro cs h; exact ⟨h, fun x hx => hx⟩
  | cons m ms ih =>
    intro cs h
    have hstep := stage1Step_sub giq ov dp cs m h
    have hrest := ih (stage1Step giq ov dp cs m) hstep.1
    exact ⟨hrest.1, fun x hx => hstep.2 x (hrest.2 x hx)⟩

/-- C2 (amended): in Stage 2 of `find_best_image_hybrid`, when a weighted
secondary metric's values coincide across all remaining candidates, the
range divisor is set to 1 (avoiding any division by zero) and the min-max
normalized value assigned to every candidate is 0 — not 1 as the spec
states.  The uniform value shifts every candidate's score equally, so the
ranking is unaffected. -/
theorem c2_equal_values_normalize_zero (giq : String → String → String → ℚ)
    (metric_overrides : List (String × String)) (date_preference : String)
    (candidates : List String) (metric_weights : List (String × ℚ))
    (metric : String) (v0 : ℚ)
    (hne : metricValuesOf giq metric_overrides date_preference candidates
        metric_weights metric ≠ [])
    (hall : ∀ v ∈ metricValuesOf giq metric_overrides date_preference
        candidates metric_weights metric, v = v0) :
    (metricRange (metricValuesOf giq metric_overrides date_preference
        candidates metric_weights metric)).2.2 = 1 ∧
    ∀ img ∈ candidates,
      normalizedValue
          (giq img metric (prefOf metric_overrides date_preference metric))
          (metricRange (metricValuesOf giq metric_overrides date_preference
            candidates metric_weights metric)).1
          (metricRange (metricValuesOf giq metric_overrides date_preference
            candidates metric_weights metric)).2.2 = 0 := by
  have hmin : pyMin (metricValuesOf giq metric_overrides date_preference
      candidates metric_weights metric) = v0 :=
    hall _ (pyMin_mem _ hne)
  have hmax : pyMax (metricValuesOf giq metric_overrides date_preference
      candidates metric_weights metric) = v0 :=
    hall _ (pyMax_mem _ hne)
  have hrange : (metricRange (metricValuesOf giq metric_overrides
      date_preference candidates metric_weights metric)).2.2 = 1 := by
    rw [metricRange]
    simp only [hmin, hmax, lt_self_iff_false, if_false]
  refine ⟨hrange, ?_⟩
  intro img himg
  have hw : (weightOf metric_weights metric).isSome = true := by
    by_contra hw
    apply hne
    rw [metricValuesOf, if_neg hw]
  have hval : giq img metric (prefOf metric_overrides date_preference metric)
      ∈ metricValuesOf giq metric_overrides date_preference candidates
        metric_weights metric := by
    rw [metricValuesOf, if_pos hw]
    exact List.mem_map.mpr ⟨img, himg, rfl⟩
  have hv : giq img metric (prefOf metric_overrides date_preference metric)
      = v0 := hall _ hval
  rw [normalizedValue, hrange, hv]
  rw [metricRange]
  simp only [hmin]
  norm_num

/-- Witness for C2 (amended): two candidates with identical filesize 5. -/
theorem c2_witness :
    (metricRange (metricValuesOf (fun _ _ _ => (5 : ℚ)) [] "newest"
        ["x", "y"] [("filesize", 1)] "filesize")).2.2 = 1 ∧
    ∀ img ∈ (["x", "y"] : List String),
      normalizedValue
          ((fun _ _ _ => (5 : ℚ)) img "filesize" (prefOf [] "newest" "filesize"))
          (metricRange (metricValuesOf (fun _ _ _ => (5 : ℚ)) [] "newest"
            ["x", "y"] [("filesize", 1)] "filesize")).1
          (metricRange (metricValuesOf (fun _ _ _ => (5 : ℚ)) [] "newest"
            ["x", "y"] [("filesize", 1)] "filesize")).2.2 = 0 :=
  c2_equal_values_normalize_zero (fun _ _ _ => (5 : ℚ)) [] "newest"
    ["x", "y"] [("filesize", 1)] "filesize" 5 (by decide) (by decide)

/-- Counterexample to C2 as stated: with two candidates of equal filesize
5, the normalized value assigned to candidate `x` is 0, not 1. -/
theorem c2_counterexample :
    normalizedValue
        ((fun _ _ _ => (5 : ℚ)) "x" "filesize" (prefOf [] "newest" "filesize"))
        (metricRange (metricValuesOf (fun _ _ _ => (5 : ℚ)) [] "newest"
          ["x", "y"] [("filesize", 1)] "filesize")).1
        (metricRange (metricValuesOf (fun _ _ _ => (5 : ℚ)) [] "newest"
          ["x", "y"] [("filesize", 1)] "filesize")).2.2 ≠ 1 := by
  have hv : metricValuesOf (fun _ _ _ => (5 : ℚ)) [] "newest" ["x", "y"]
      [("filesize", 1)] "filesize" = [5, 5] := rfl
  have hmin : pyMin [5, 5] = 5 := by simp [pyMin]
  have hmax : pyMax [5, 5] = 5 := by simp [pyMax]
  have hr2 : (metricRange [5, 5]).2.2 = 1 := by
    rw [metricRange]
    simp [hmin, hmax]
  have hr1 : (metricRange [5, 5]).1 = 5 := by
    rw [metricRange]
    simp [hmin]
  rw [hv, hr1, hr2]
  show normalizedValue 5 5 1 ≠ 1
  rw [normalizedValue]
  norm_num

/-- C10 (confirmed): `find_best_image_hybrid` returns a member of the
input group for every nonempty group and every configuration, and `None`
for the empty group. -/
theorem c10_best_within_group (giq : String → String → String → ℚ)
    (image_group : List String)
    (primary_metrics secondary_metrics : List String)
    (metric_weights : List (String × ℚ)) (date_preference : String)
    (metric_overrides : List (String × String)) :
    (image_group ≠ [] → ∃ x ∈ image_group,
      find_best_image_hybrid giq image_group primary_metrics
        secondary_metrics metric_weights date_preference metric_overrides
        = some x) ∧
    (image_group = [] →
      find_best_image_hybrid giq image_group primary_metrics
        secondary_metrics metric_weights date_preference metric_overrides
        = none) := by
  constructor
  · intro hne
    simp only [find_best_image_hybrid]
    by_cases h1 : image_group.length ≤ 1
    · rw [if_pos h1]
      obtain ⟨a, l, rfl⟩ := List.exists_cons_of_ne_nil hne
      exact ⟨a, List.mem_cons_self a l, rfl⟩
    · rw [if_neg h1]
      have hfold := stage1_fold_sub giq metric_overrides date_preference
        (if primary_metrics = [] then
          ["dimensions", "format_quality", "filesize", "modified_date"]
        else primary_metrics) image_group hne
      set cs := (if primary_metrics = [] then
          ["dimensions", "format_quality", "filesize", "modified_date"]
        else primary_metrics).foldl
          (stage1Step giq metric_overrides date_preference) image_group
        with hcs
      by_cases h2 : cs.length = 1
      · rw [if_pos h2]
        obtain ⟨a, l, hal⟩ := List.exists_cons_of_ne_nil hfold.1
        refine ⟨a, hfold.2 a (by
          rw [hal]
          exact List.mem_cons_self a l), ?_⟩
        rw [hal]
        rfl
      · rw [if_neg h2]
        by_cases h3 : secondary_metrics ≠ [] ∧ 1 < cs.length
        · rw [if_pos h3]
          have hscores : cs.map (fun img =>
              (img, totalScore giq metric_overrides date_preference cs
                (if metric_weights = [] then DEFAULT_METRIC_WEIGHTS
                  else metric_weights) secondary_metrics img)) ≠ [] := by
            intro hc
            exact hfold.1 (List.map_eq_nil.mp hc)
          cases hs : (cs.map (fun img =>
              (img, totalScore giq metric_overrides date_preference cs
                (if metric_weights = [] then DEFAULT_METRIC_WEIGHTS
                  else metric_weights) secondary_metrics img))).mergeSort
              (fun x y => decide (y.2 ≤ x.2)) with
          | nil =>
            exfalso
            apply hscores
            have hperm := List.mergeSort_perm (cs.map (fun img =>
              (img, totalScore giq metric_overrides date_preference cs
                (if metric_weights = [] then DEFAULT_METRIC_WEIGHTS
                  else metric_weights) secondary_metrics img)))
              (fun x y => decide (y.2 ≤ x.2))
            rw [hs] at hperm
            exact hperm.symm.eq_nil
          | cons hd tl =>
            obtain ⟨img, sc⟩ := hd
            have hmem : (img, sc) ∈ (cs.map (fun img =>
                (img, totalScore giq metric_overrides date_preference cs
                  (if metric_weights = [] then DEFAULT_METRIC_WEIGHTS
                    else metric_weights) secondary_metrics img))) := by
              have hperm := List.mergeSort_perm (cs.map (fun img =>
                (img, totalScore giq metric_overrides date_preference cs
                  (if metric_weights = [] then DEFAULT_METRIC_WEIGHTS
                    else metric_weights) secondary_metrics img)))
                (fun x y => decide (y.2 ≤ x.2))
              rw [hs] at hperm
              exact hperm.mem_iff.mp (List.mem_cons_self _ tl)
            obtain ⟨c, hc, hcp⟩ := List.mem_map.mp hmem
            have hcimg : c = img := congrArg Prod.fst hcp
            refine ⟨img, hfold.2 img (hcimg ▸ hc), ?_⟩
            rfl
        · rw [if_neg h3]
          obtain ⟨a, l, hal⟩ := List.exists_cons_of_ne_nil hfold.1
          refine ⟨a, hfold.2 a (by
            rw [hal]
            exact List.mem_cons_self a l), ?_⟩
          rw [hal]
          rfl
  · intro h
    subst h
    rfl

/-- Witness for C10 on the two-image group `["a", "b"]`. -/
theorem c10_witness :
    ∃ x ∈ (["a", "b"] : List String),
      find_best_image_hybrid (fun _ _ _ => 0) ["a", "b"] ["dimensions"] []
        [] "newest" [] = some x :=
  (c10_best_within_group (fun _ _ _ => 0) ["a", "b"] ["dimensions"] []
    [] "newest" []).1 (by decide)

/-! ### Output-organizer lemmas -/

lemma handleLongPath_fst (m : String → String) (hlp : Bool) (mpl : Nat)
    (d1 d2 : Bool) (s1 s2 : FSState) (p : String) :
    (handleLongPath m hlp mpl d1 s1 p).1
      = (handleLongPath m hlp mpl d2 s2 p).1 := by
  by_cases hc : hlp ∧ mpl < p.length
  · rw [handleLongPath, handleLongPath, if_pos hc, if_pos hc]
    cases hm : (create_safe_path m p mpl true).2 with
    | none => simp [hm]
    | some mp => simp [hm]
  · rw [handleLongPath, handleLongPath, if_neg hc, if_neg hc]

lemma handleLongPath_dry (m : String → String) (hlp : Bool) (mpl : Nat)
    (s : FSState) (p : String) :
    (handleLongPath m hlp mpl true s p).2 = s := by
  by_cases hc : hlp ∧ mpl < p.length
  · rw [handleLongPath, if_pos hc]
    cases hm : (create_safe_path m p mpl true).2 with
    | none => simp [hm]
    | some mp => simp [hm]
  · rw [handleLongPath, if_neg hc]

lemma processCandidates_dry (P : OOParams) (cd : String) :
    ∀ (l : List String) (s : FSState) (count : Nat),
      processCandidates P true cd l s count = (count, s) := by
  intro l
  induction l with
  | nil => intro s count; rfl
  | cons x rest ih =>
    intro s count
    simp only [processCandidates, handleLongPath_dry, if_true]
    exact ih s count

lemma processGroup_dry (P : OOParams) (g : List String) (s : FSState) :
    (processGroup P true g s).2.2 = s ∧
    (processGroup P true g s).2.1.length ≤ 1 ∧
    ∀ r : GroupResult, (processGroup P true g s).1 = some r →
      r.total_candidates = 0 := by
  rw [processGroup]
  by_cases h1 : g.length = 1 ∧ ¬ P.include_singletons
  · rw [if_pos h1]
    exact ⟨rfl, by simp, by intro r hr; cases hr⟩
  · rw [if_neg h1]
    by_cases h2 : g.length = 1 ∧ P.include_singletons
    · rw [if_pos h2]
      exact ⟨rfl, by simp, by intro r hr; cases hr⟩
    · rw [if_neg h2]
      cases hb : find_best_image_hybrid P.giq g P.primary_metrics
          P.secondary_metrics P.metric_weights P.date_preference
          P.metric_overrides with
      | none => exact ⟨rfl, by simp, by intro r hr; cases hr⟩
      | some best =>
        refine ⟨?_, ?_, ?_⟩
        · simp only [handleLongPath_dry, processCandidates_dry, if_true]
        · simp only [handleLongPath_dry, processCandidates_dry, if_true]
          simp
        · intro r hr
          simp only [handleLongPath_dry, processCandidates_dry, if_true,
            Option.some.injEq] at hr
          rw [← hr]

lemma processGroups_dry (P : OOParams) :
    ∀ (gs : List (List String)) (s : FSState),
      (processGroups P true gs s).2.2 = s ∧
      ∀ r ∈ (processGroups P true gs s).1, r.total_candidates = 0 := by
  intro gs
  induction gs with
  | nil => intro s; exact ⟨rfl, by intro r hr; cases hr⟩
  | cons g rest ih =>
    intro s
    have hg := processGroup_dry P g s
    have hr := ih (processGroup P true g s).2.2
    constructor
    · show (processGroups P true rest (processGroup P true g s).2.2).2.2 = s
      rw [hr.1, hg.1]
    · intro r hmem
      rcases List.mem_append.mp hmem with hm | hm
      · cases ho : (processGroup P true g s).1 with
        | none => rw [ho] at hm; cases hm
        | some r0 =>
          rw [ho] at hm
          rcases List.mem_singleton.mp hm with rfl
          exact hg.2.2 r ho
      · exact hr.2 r hm


lemma attemptSrcs_append (a b : List FSEffect) :
    attemptSrcs (a ++ b) = attemptSrcs a ++ attemptSrcs b := by
  simp [attemptSrcs]

lemma addDir_attempts (s : FSState) (d : String) :
    attemptSrcs (addDir s d).effects = attemptSrcs s.effects := by
  simp [addDir, attemptSrcs_append, attemptSrcs]

lemma handleLongPath_attempts (m : String → String) (hlp : Bool)
    (mpl : Nat) (d : Bool) (s : FSState) (p : String) :
    attemptSrcs (handleLongPath m hlp mpl d s p).2.effects
      = attemptSrcs s.effects := by
  by_cases hc : hlp ∧ mpl < p.length
  · rw [handleLongPath, if_pos hc]
    cases hm : (create_safe_path m p mpl true).2 with
    | none => simp [hm]
    | some mp =>
      cases d with
      | false => simp [hm, writeMetaEff, attemptSrcs_append, attemptSrcs]
      | true => simp [hm]
  · rw [handleLongPath, if_neg hc]

lemma handleLongPath_guardName (m : String → String) (hlp : Bool)
    (mpl : Nat) (d : Bool) (s : FSState) (p : String) :
    (handleLongPath m hlp mpl d s p).1 = guardName m hlp mpl p := by
  by_cases hc : hlp ∧ mpl < p.length
  · rw [handleLongPath, if_pos hc, guardName, if_pos hc]
    cases hm : (create_safe_path m p mpl true).2 with
    | none => simp [hm]
    | some mp => simp [hm]
  · rw [handleLongPath, if_neg hc, guardName, if_neg hc]

lemma handle_duplicate_attempts (md5 : String → String)
    (failT : String → String → Bool) (s : FSState)
    (src dst mode : String) (bl : Bool) (strat : String)
    (hmode : mode = "copy" ∨ mode = "symlink" ∨ mode = "move") :
    attemptSrcs (handle_duplicate md5 failT s src dst mode bl strat).2.effects
      = attemptSrcs s.effects ++ [src] := by
  rcases hmode with rfl | rfl | rfl <;>
    · simp only [handle_duplicate]
      split
      · split
        · simp [addDir, attemptSrcs_append, attemptSrcs]
        · cases bl <;> simp [addDir, attemptSrcs_append, attemptSrcs]
      · simp_all

lemma handle_duplicate_none (md5 : String → String)
    (failT : String → String → Bool) (s : FSState)
    (src dst mode : String) (bl : Bool) (strat : String)
    (hmode : mode = "copy" ∨ mode = "symlink" ∨ mode = "move")
    (hf : ∀ d, failT src d = true) :
    (handle_duplicate md5 failT s src dst mode bl strat).1 = none := by
  rcases hmode with rfl | rfl | rfl <;>
    · simp only [handle_duplicate]
      rw [hf]
      simp

lemma handle_duplicate_ne_none (md5 : String → String)
    (failT : String → String → Bool) (s : FSState)
    (src dst mode : String) (bl : Bool) (strat : String)
    (hmode : mode = "copy" ∨ mode = "symlink" ∨ mode = "move")
    (hf : ∀ d, failT src d = false) :
    (handle_duplicate md5 failT s src dst mode bl strat).1 ≠ none := by
  rcases hmode with rfl | rfl | rfl <;>
    · simp only [handle_duplicate]
      rw [hf]
      cases bl <;> simp


lemma bestMode_valid (cb : Bool) (fh : String) :
    (if cb then "copy" else if fh = "copy" then "copy"
      else if fh = "move" then "move" else "symlink") = "copy" ∨
    (if cb then "copy" else if fh = "copy" then "copy"
      else if fh = "move" then "move" else "symlink") = "symlink" ∨
    (if cb then "copy" else if fh = "copy" then "copy"
      else if fh = "move" then "move" else "symlink") = "move" := by
  split_ifs <;> simp

lemma candMode_valid (fh : String) :
    (if fh = "copy" then "copy"
      else if fh = "move" then "move" else "symlink") = "copy" ∨
    (if fh = "copy" then "copy"
      else if fh = "move" then "move" else "symlink") = "symlink" ∨
    (if fh = "copy" then "copy"
      else if fh = "move" then "move" else "symlink") = "move" := by
  split_ifs <;> simp

lemma processCandidates_attempts (P : OOParams) (cd : String) :
    ∀ (l : List String) (s : FSState) (count : Nat),
      attemptSrcs (processCandidates P false cd l s count).2.effects
        = attemptSrcs s.effects ++ l := by
  intro l
  induction l with
  | nil => intro s count; simp [processCandidates]
  | cons img rest ih =>
    intro s count
    have hmode := candMode_valid P.file_handling
    simp only [processCandidates, Bool.false_eq_true, if_false]
    generalize hm : (if P.file_handling = "copy" then "copy"
      else if P.file_handling = "move" then "move" else "symlink") = mode0
    rw [hm] at hmode
    generalize (if P.file_handling = "move" then P.create_backlinks
      else false) = bl0
    split
    · rw [ih, handle_duplicate_attempts _ _ _ _ _ _ _ _ hmode,
        handleLongPath_attempts]
      simp
    · rw [ih, handle_duplicate_attempts _ _ _ _ _ _ _ _ hmode,
        handleLongPath_attempts]
      simp

lemma processGroup_live_none (P : OOParams) (g : List String) (s : FSState)
    (best : String)
    (hlen : g.length ≠ 1)
    (hbest : find_best_image_hybrid P.giq g P.primary_metrics
      P.secondary_metrics P.metric_weights P.date_preference
      P.metric_overrides = some best)
    (hf : ∀ d, P.failT best d = true) :
    (processGroup P false g s).1 = none ∧
    (processGroup P false g s).2.1 = [] ∧
    attemptSrcs (processGroup P false g s).2.2.effects
      = attemptSrcs s.effects ++ [best] := by
  have hmode := bestMode_valid P.copy_best P.file_handling
  simp only [processGroup, Bool.false_eq_true, if_false]
  rw [if_neg (fun h => hlen h.1), if_neg (fun h => hlen h.1), hbest]
  dsimp only
  generalize hm : (if P.copy_best then "copy"
    else if P.file_handling = "copy" then "copy"
    else if P.file_handling = "move" then "move" else "symlink") = bmode0
  rw [hm] at hmode
  generalize (if ¬ P.copy_best ∧ P.file_handling = "move" then
    P.create_backlinks else false) = bbl0
  split
  · refine ⟨rfl, rfl, ?_⟩
    simp [handle_duplicate_attempts _ _ _ _ _ _ _ _ hmode,
      handleLongPath_attempts, addDir_attempts]
  · rename_i u heq
    rw [handle_duplicate_none _ _ _ _ _ _ _ _ hmode hf] at heq
    simp at heq

lemma processGroup_live_some (P : OOParams) (g : List String) (s : FSState)
    (best : String)
    (hlen : g.length ≠ 1)
    (hbest : find_best_image_hybrid P.giq g P.primary_metrics
      P.secondary_metrics P.metric_weights P.date_preference
      P.metric_overrides = some best)
    (hf : ∀ d, P.failT best d = false) :
    ((processGroup P false g s).1).map (fun r => r.best_image) = some best ∧
    attemptSrcs (processGroup P false g s).2.2.effects
      = attemptSrcs s.effects ++ best :: g := by
  have hmode := bestMode_valid P.copy_best P.file_handling
  simp only [processGroup, Bool.false_eq_true, if_false]
  rw [if_neg (fun h => hlen h.1), if_neg (fun h => hlen h.1), hbest]
  dsimp only
  generalize hm : (if P.copy_best then "copy"
    else if P.file_handling = "copy" then "copy"
    else if P.file_handling = "move" then "move" else "symlink") = bmode0
  rw [hm] at hmode
  generalize (if ¬ P.copy_best ∧ P.file_handling = "move" then
    P.create_backlinks else false) = bbl0
  split
  · rename_i heq
    exact absurd heq (handle_duplicate_ne_none _ _ _ _ _ _ _ _ hmode hf)
  · rename_i u heq
    refine ⟨rfl, ?_⟩
    rw [processCandidates_attempts,
      handle_duplicate_attempts _ _ _ _ _ _ _ _ hmode]
    simp [handleLongPath_attempts, addDir_attempts]


lemma processGroups_append (P : OOParams) (d : Bool) :
    ∀ (gs1 gs2 : List (List String)) (s : FSState),
      processGroups P d (gs1 ++ gs2) s
        = ((processGroups P d gs1 s).1
            ++ (processGroups P d gs2 (processGroups P d gs1 s).2.2).1,
          (processGroups P d gs1 s).2.1
            ++ (processGroups P d gs2 (processGroups P d gs1 s).2.2).2.1,
          (processGroups P d gs2 (processGroups P d gs1 s).2.2).2.2) := by
  intro gs1
  induction gs1 with
  | nil => intro gs2 s; simp [processGroups]
  | cons g rest ih =>
    intro gs2 s
    simp only [List.cons_append, processGroups, List.append_eq]
    rw [ih]
    simp [List.append_assoc]

lemma option_toList_map (o : Option GroupResult)
    (f : GroupResult → String × String) :
    o.toList.map f = (o.map f).toList := by
  cases o <;> rfl

lemma processGroup_proj (P : OOParams) (hf : ∀ a b, P.failT a b = false)
    (g : List String) (s1 s2 : FSState) :
    ((processGroup P false g s1).1).map
        (fun r => (r.best_image, r.candidates_dir))
      = ((processGroup P true g s2).1).map
        (fun r => (r.best_image, r.candidates_dir)) := by
  have hmode := bestMode_valid P.copy_best P.file_handling
  simp only [processGroup, Bool.false_eq_true, if_false, eq_self_iff_true,
    if_true, handleLongPath_guardName]
  by_cases h1 : g.length = 1 ∧ ¬ P.include_singletons
  · rw [if_pos h1, if_pos h1]
  · rw [if_neg h1, if_neg h1]
    by_cases h2 : g.length = 1 ∧ P.include_singletons
    · rw [if_pos h2, if_pos h2]
    · rw [if_neg h2, if_neg h2]
      cases hb : find_best_image_hybrid P.giq g P.primary_metrics
          P.secondary_metrics P.metric_weights P.date_preference
          P.metric_overrides with
      | none => rfl
      | some best =>
        dsimp only
        generalize hm : (if P.copy_best then "copy"
          else if P.file_handling = "copy" then "copy"
          else if P.file_handling = "move" then "move"
          else "symlink") = bmode0
        rw [hm] at hmode
        generalize (if ¬ P.copy_best ∧ P.file_handling = "move" then
          P.create_backlinks else false) = bbl0
        split
        · rename_i heq
          exact absurd heq
            (handle_duplicate_ne_none _ _ _ _ _ _ _ _ hmode (hf best))
        · rfl

lemma processGroups_proj (P : OOParams) (hf : ∀ a b, P.failT a b = false) :
    ∀ (gs : List (List String)) (s1 s2 : FSState),
      ((processGroups P false gs s1).1).map
          (fun r => (r.best_image, r.candidates_dir))
        = ((processGroups P true gs s2).1).map
          (fun r => (r.best_image, r.candidates_dir)) := by
  intro gs
  induction gs with
  | nil => intro s1 s2; rfl
  | cons g rest ih =>
    intro s1 s2
    simp only [processGroups, List.map_append]
    rw [option_toList_map, option_toList_map, processGroup_proj P hf g s1 s2,
      ih _ ((processGroup P true g s2).2.2)]


/-- **C3.** Corrected form: a dry run of `create_output_structure` leaves
the filesystem, registry and effect log completely unchanged and still
reports each group's best image and candidates directory exactly as a
failure-free live run does, but it does not perform the collision
resolution or the transfers: every reported `total_candidates` is `0`
(the live run reports the number of successful candidate transfers). -/
theorem c3_dry_run_refinement (P : OOParams)
    (similar_groups : List (List String)) (s0 : FSState) :
    (create_output_structure P true similar_groups s0).2 = s0 ∧
    (∀ r ∈ (create_output_structure P true similar_groups s0).1,
      r.total_candidates = 0) ∧
    ((∀ a b, P.failT a b = false) → ∀ s1 : FSState,
      ((create_output_structure P false similar_groups s1).1).map
          (fun r => (r.best_image, r.candidates_dir))
        = ((create_output_structure P true similar_groups s0).1).map
          (fun r => (r.best_image, r.candidates_dir))) := by
  have hd := processGroups_dry P similar_groups s0
  refine ⟨?_, ?_, ?_⟩
  · simp only [create_output_structure]
    rw [if_neg (fun h => h.2.2 trivial), if_pos trivial]
    exact hd.1
  · simp only [create_output_structure]
    rw [if_pos trivial]
    exact hd.2
  · intro hf s1
    simp only [create_output_structure]
    exact processGroups_proj P hf similar_groups _ _

/-- A concrete witness instantiating the corrected dry-run claim: on the
two-image group, the dry run changes nothing, reports zero candidates,
and agrees with the live run on the best image and directory layout. -/
theorem c3_witness :
    (create_output_structure c3P true c3groups c3s).2 = c3s ∧
    (∀ r ∈ (create_output_structure c3P true c3groups c3s).1,
      r.total_candidates = 0) ∧
    ((create_output_structure c3P false c3groups c3s).1).map
        (fun r => (r.best_image, r.candidates_dir))
      = ((create_output_structure c3P true c3groups c3s).1).map
        (fun r => (r.best_image, r.candidates_dir)) :=
  ⟨(c3_dry_run_refinement c3P c3groups c3s).1,
   (c3_dry_run_refinement c3P c3groups c3s).2.1,
   (c3_dry_run_refinement c3P c3groups c3s).2.2 (fun _ _ => rfl) c3s⟩

set_option maxRecDepth 16384 in
/-- Counterexample to the literal C3 claim: on a two-image group with no
transfer failures the live run reports `total_candidates = 2` while the
dry run reports `0`, so the dry-run summary counts are not identical to
the live run's. -/
theorem c3_counterexample :
    (∀ a b, c3P.failT a b = false) ∧
    ((create_output_structure c3P false c3groups c3s).1).map
        (fun r => r.total_candidates) = [2] ∧
    ((create_output_structure c3P true c3groups c3s).1).map
        (fun r => r.total_candidates) = [0] :=
  ⟨fun _ _ => rfl, by decide, by decide⟩

/-- **C9.** Corrected form, over an arbitrary configuration `P`: (i) the
batch never aborts — the groups after any prefix are processed exactly as
if started from the prefix's final state; (ii) when the best image's
transfer succeeds, every member of the group is still attempted (the
attempted transfer sources appended by the group are exactly the best
image followed by all group members), even if any of those candidate
transfers fail; but (iii) when the best image's transfer fails, the
`continue` skips the whole group: no result is recorded for it and no
candidate transfer is ever attempted (only the best image's single failed
attempt is logged), refuting the literal claim that a single file's
failure never prevents the remaining members of its group from being
attempted. -/
theorem c9_per_item_failure_isolation (P : OOParams) :
    (∀ (gs1 gs2 : List (List String)) (s : FSState),
      (processGroups P false (gs1 ++ gs2) s).1
        = (processGroups P false gs1 s).1
          ++ (processGroups P false gs2 (processGroups P false gs1 s).2.2).1) ∧
    (∀ (g : List String) (s : FSState) (best : String),
      g.length ≠ 1 →
      find_best_image_hybrid P.giq g P.primary_metrics P.secondary_metrics
        P.metric_weights P.date_preference P.metric_overrides = some best →
      (∀ d, P.failT best d = false) →
      attemptSrcs (processGroup P false g s).2.2.effects
        = attemptSrcs s.effects ++ best :: g) ∧
    (∀ (g : List String) (s : FSState) (best : String),
      g.length ≠ 1 →
      find_best_image_hybrid P.giq g P.primary_metrics P.secondary_metrics
        P.metric_weights P.date_preference P.metric_overrides = some best →
      (∀ d, P.failT best d = true) →
      (processGroup P false g s).1 = none ∧
      attemptSrcs (processGroup P false g s).2.2.effects
        = attemptSrcs s.effects ++ [best]) := by
  refine ⟨?_, ?_, ?_⟩
  · intro gs1 gs2 s
    rw [processGroups_append]
  · intro g s best hlen hbest hf
    exact (processGroup_live_some P g s best hlen hbest hf).2
  · intro g s best hlen hbest hf
    have h := processGroup_live_none P g s best hlen hbest hf
    exact ⟨h.1, h.2.2⟩

/-- A concrete witness for the corrected C9 claim, part (iii): with a
transfer oracle failing exactly on the best image's source, the group
yields no result and logs only the best image's attempt. -/
theorem c9_witness :
    (processGroup c9P false c9group c9s).1 = none ∧
    attemptSrcs (processGroup c9P false c9group c9s).2.2.effects
      = attemptSrcs c9s.effects ++ ["/src/a.jpg"] :=
  (c9_per_item_failure_isolation c9P).2.2 c9group c9s "/src/a.jpg"
    (by decide) (by decide) (fun _ => rfl)

set_option maxRecDepth 16384 in
/-- Counterexample to the literal C9 claim: the best image
`/src/a.jpg` of the two-image group fails to transfer while its group
mate `/src/b.jpg` would transfer fine, yet `/src/b.jpg` is never
attempted (the only logged attempt source is the best image) and the
group produces no result. -/
theorem c9_counterexample :
    find_best_image_hybrid c9P.giq c9group c9P.primary_metrics
        c9P.secondary_metrics c9P.metric_weights c9P.date_preference
        c9P.metric_overrides = some "/src/a.jpg" ∧
    "/src/b.jpg" ∈ c9group ∧
    (∀ d, c9P.failT "/src/b.jpg" d = false) ∧
    (processGroup c9P false c9group c9s).1 = none ∧
    attemptSrcs (processGroup c9P false c9group c9s).2.2.effects
      = ["/src/a.jpg"] :=
  ⟨by decide, by decide, fun _ => rfl, by decide, by decide⟩


end FBI
